import Mathlib

/-!
Verification of the Confluence-to-Markdown converter
(`src/converter/converter.ts`, class `ConfluenceConverter`).

The converter is a pipeline of JavaScript global regex replacements plus
string assembly.  We embed it shallowly: strings are `List Char`, each
`String.prototype.replace(re, f)` call with a `g`-flagged regex becomes a
left-to-right scan (`scanA`) that finds the leftmost match at each
position, replaces it, and resumes immediately after the consumed text —
exactly the ECMAScript `replace` semantics.  The regexes of the source use
only literals (with the `i` flag), single-character classes with greedy or
lazy repetition (`[^>]*`, `[\s\S]*?`, `#{1,6}`, `\/?`), capture groups
around such pieces, and the multiline end-of-line anchor.  `matchSeq`
below is a backtracking matcher for precisely this fragment, with the
standard preference order (alternatives of the leftmost atom are explored
outermost; greedy tries longest first, lazy shortest first), so each
source regex is transcribed atom by atom.

The generic HTML→Markdown engine (the `turndown` npm package) is an
external collaborator, not part of this repository; `convert` therefore
takes the engine as an explicit function parameter `td`.
-/

namespace C2M

/-- ECMAScript WhiteSpace ∪ LineTerminator: the character set matched by
the regex class `\s` and stripped by `String.prototype.trim`. -/
def jsWs (c : Char) : Bool :=
  c = ' ' || c = '\t' || c = '\n' || c = '\r' ||
  c = Char.ofNat 0x0b || c = Char.ofNat 0x0c || c = Char.ofNat 0xa0 ||
  c = Char.ofNat 0x1680 ||
  (Char.ofNat 0x2000 ≤ c && c ≤ Char.ofNat 0x200a) ||
  c = Char.ofNat 0x2028 || c = Char.ofNat 0x2029 ||
  c = Char.ofNat 0x202f || c = Char.ofNat 0x205f ||
  c = Char.ofNat 0x3000 || c = Char.ofNat 0xfeff

/-- ECMAScript LineTerminator (where the multiline `$` anchor may sit). -/
def lineTerm (c : Char) : Bool :=
  c = '\n' || c = '\r' || c = Char.ofNat 0x2028 || c = Char.ofNat 0x2029

/-- Character comparison, optionally case-insensitive (the `i` flag;
all literals in the source regexes are ASCII). -/
def chEq (ci : Bool) (p c : Char) : Bool :=
  if ci then p.toLower = c.toLower else p = c

/-- Atom of the regex fragment used by the source: a literal (with
case-insensitivity flag), or a repeated single-character class with
min/optional-max bounds and a laziness flag, or the multiline `$`. -/
inductive SAtom : Type where
  | lit : List Char → Bool → SAtom
  | rep : (Char → Bool) → Nat → Option Nat → Bool → SAtom
  | eol : SAtom

/-- A sequence element: a plain atom or a capture group. -/
inductive Atom : Type where
  | plain : SAtom → Atom
  | group : List SAtom → Atom

/-- Match a literal against the head of the input, returning the rest. -/
def litMatch (ci : Bool) : List Char → List Char → Option (List Char)
  | [], s => some s
  | _ :: _, [] => none
  | p :: ps, c :: cs => if chEq ci p c then litMatch ci ps cs else none

/-- Decrement an optional bound (saturating at zero). -/
def decrMax : Option Nat → Option Nat
  | none => none
  | some m => some (m - 1)

/-- All suffixes of `s` obtained by consuming `0, 1, 2, …` characters
satisfying `p`, at most `mx` of them, in ascending order of the number of
characters consumed. -/
def repSuffixes (p : Char → Bool) : Option Nat → List Char → List (List Char)
  | _, [] => [[]]
  | mx, c :: s =>
    (c :: s) :: (if p c ∧ mx ≠ some 0 then repSuffixes p (decrMax mx) s else [])

/-- Backtracking matcher for a sequence of simple atoms, in
continuation-passing style: `k` receives the input remaining after the
atoms, and choice points are explored in ECMAScript preference order
(greedy longest-first, lazy shortest-first). -/
def matchSeqS {α : Type} (k : List Char → Option α) : List SAtom → List Char → Option α
  | [], s => k s
  | SAtom.lit l ci :: rest, s =>
    (litMatch ci l s).bind (fun s' => matchSeqS k rest s')
  | SAtom.eol :: rest, s =>
    if (match s with | [] => true | c :: _ => lineTerm c) then matchSeqS k rest s
    else none
  | SAtom.rep p mn mx lz :: rest, s =>
    let cands := (repSuffixes p mx s).drop mn
    let ordered := if lz then cands else cands.reverse
    ordered.findSome? (fun s' => matchSeqS k rest s')

/-- The part of `s` consumed before reaching the suffix `rem`. -/
def consumedBy (s rem : List Char) : List Char := s.take (s.length - rem.length)

/-- Backtracking matcher for a full pattern at the start of `s`: returns
the remaining input and the list of captured substrings, in order. -/
def matchSeq : List Atom → List Char → Option (List Char × List (List Char))
  | [], s => some (s, [])
  | Atom.plain a :: rest, s =>
    matchSeqS (fun s' => matchSeq rest s') [a] s
  | Atom.group sub :: rest, s =>
    matchSeqS (fun s' =>
      (matchSeq rest s').map (fun r => (r.1, consumedBy s s' :: r.2))) sub s

/-- One step of a global replace: given the text at the current position,
either `none` (no match here: copy one character and advance) or
`some (replacement, warnings, continuation)` (a match: emit the
replacement and resume at the continuation). -/
abbrev TryStep := List Char → Option (List Char × List (List Char) × List Char)

/-- Driver shared by every `replace(..., g)` call of the source: scan left
to right, at each position attempt a match, on success emit the
replacement and continue after the match, otherwise copy one character.
`fuel` only bounds the recursion; every step consumes at least one input
character, so `fuel := s.length` is always sufficient. -/
def scanA (t : TryStep) : Nat → List Char → List Char × List (List Char)
  | _, [] => ([], [])
  | 0, s => (s, [])
  | fuel + 1, c :: s =>
    match t (c :: s) with
    | some (repl, ws, cont) =>
      let r := scanA t fuel cont
      (repl ++ r.1, ws ++ r.2)
    | none =>
      let r := scanA t fuel s
      (c :: r.1, r.2)

/-- Match step for a regex pass: leftmost match of `pats`, replaced via
`f` (which also reports warnings, mirroring the closures passed to
`String.replace` in the source).  Every pattern of the source begins with
a nonempty literal, so a match always consumes at least one character and
the ECMAScript empty-match rule never fires; a zero-length match is
treated as no match. -/
def regexTry (pats : List Atom) (f : List Char → List (List Char) → List Char × List (List Char)) :
    TryStep := fun s =>
  match matchSeq pats s with
  | none => none
  | some (rem, caps) =>
    let n := s.length - rem.length
    if n = 0 then none
    else
      let r := f (s.take n) caps
      some (r.1, r.2, s.drop n)

/-- A whole `html.replace(re, f)` call with a global regex. -/
def replacePass (pats : List Atom) (f : List Char → List (List Char) → List Char × List (List Char))
    (s : List Char) : List Char × List (List Char) :=
  scanA (regexTry pats f) s.length s

/-- Like `String.prototype.match` with a non-global regex: captures of the
leftmost match, scanning positions left to right. -/
def firstMatch (pats : List Atom) : List Char → Option (List (List Char))
  | [] => (matchSeq pats []).map (fun r => r.2)
  | c :: s =>
    match matchSeq pats (c :: s) with
    | some r => some r.2
    | none => firstMatch pats s

/-- Shorthand for string literals as character lists. -/
def str (s : String) : List Char := s.data

/-- Case-insensitive literal atom (the source regexes all carry `i`). -/
def litCI (s : String) : SAtom := SAtom.lit (str s) true

/-- Case-sensitive literal atom. -/
def litCS (s : String) : SAtom := SAtom.lit (str s) false

/-- The lazy `[\s\S]*?` of the source regexes. -/
def lazyAny : Atom := Atom.plain (SAtom.rep (fun _ => true) 0 none true)

/-- The captured `([\s\S]*?)`. -/
def lazyAnyCap : Atom := Atom.group [SAtom.rep (fun _ => true) 0 none true]

/-- The greedy `[^>]*`. -/
def notGtStar : Atom := Atom.plain (SAtom.rep (fun c => c != '>') 0 none false)

/-!  Transcriptions of the regexes of `preprocessMacros`, in source order. -/

/-- Regex of the code-block pass:
`/<ac:structured-macro[^>]*ac:name="code"[^>]*>[\s\S]*?<ac:plain-text-body><!\[CDATA\[([\s\S]*?)\]\]><\/ac:plain-text-body>[\s\S]*?<\/ac:structured-macro>/gi`. -/
def codeBlockPat : List Atom :=
  [Atom.plain (litCI "<ac:structured-macro"), notGtStar,
   Atom.plain (litCI "ac:name=\"code\""), notGtStar, Atom.plain (litCI ">"),
   lazyAny, Atom.plain (litCI "<ac:plain-text-body><![CDATA["),
   lazyAnyCap, Atom.plain (litCI "]]></ac:plain-text-body>"),
   lazyAny, Atom.plain (litCI "</ac:structured-macro>")]

/-- Regex of the noformat pass (identical shape, name `noformat`). -/
def noformatPat : List Atom :=
  [Atom.plain (litCI "<ac:structured-macro"), notGtStar,
   Atom.plain (litCI "ac:name=\"noformat\""), notGtStar, Atom.plain (litCI ">"),
   lazyAny, Atom.plain (litCI "<ac:plain-text-body><![CDATA["),
   lazyAnyCap, Atom.plain (litCI "]]></ac:plain-text-body>"),
   lazyAny, Atom.plain (litCI "</ac:structured-macro>")]

/-- Regex of the language-parameter lookup inside a matched code block:
`/<ac:parameter ac:name="language">([\s\S]*?)<\/ac:parameter>/i`. -/
def langPat : List Atom :=
  [Atom.plain (litCI "<ac:parameter ac:name=\"language\">"),
   lazyAnyCap, Atom.plain (litCI "</ac:parameter>")]

/-- Regex of a panel pass, for `panelType ∈ {info, note, warning, tip}`:
`<ac:structured-macro[^>]*ac:name="${panelType}"[^>]*>([\s\S]*?)<\/ac:structured-macro>` with `gi`. -/
def panelPat (panelType : String) : List Atom :=
  [Atom.plain (litCI "<ac:structured-macro"), notGtStar,
   Atom.plain (litCI ("ac:name=\"" ++ panelType ++ "\"")), notGtStar,
   Atom.plain (litCI ">"),
   lazyAnyCap, Atom.plain (litCI "</ac:structured-macro>")]

/-- Regex of the rich-text-body lookup inside a matched panel or expand:
`/<ac:rich-text-body>([\s\S]*?)<\/ac:rich-text-body>/i`. -/
def richBodyPat : List Atom :=
  [Atom.plain (litCI "<ac:rich-text-body>"),
   lazyAnyCap, Atom.plain (litCI "</ac:rich-text-body>")]

/-- Regex of the expand pass:
`/<ac:structured-macro[^>]*ac:name="expand"[^>]*>([\s\S]*?)<\/ac:structured-macro>/gi`. -/
def expandPat : List Atom :=
  [Atom.plain (litCI "<ac:structured-macro"), notGtStar,
   Atom.plain (litCI "ac:name=\"expand\""), notGtStar, Atom.plain (litCI ">"),
   lazyAnyCap, Atom.plain (litCI "</ac:structured-macro>")]

/-- Regex of the title-parameter lookup inside a matched expand:
`/<ac:parameter ac:name="title">([\s\S]*?)<\/ac:parameter>/i`. -/
def titlePat : List Atom :=
  [Atom.plain (litCI "<ac:parameter ac:name=\"title\">"),
   lazyAnyCap, Atom.plain (litCI "</ac:parameter>")]

/-- Regex of the jira pass:
`/<ac:structured-macro[^>]*ac:name="jira"[^>]*>[\s\S]*?<ac:parameter ac:name="key">([\s\S]*?)<\/ac:parameter>[\s\S]*?<\/ac:structured-macro>/gi`. -/
def jiraPat : List Atom :=
  [Atom.plain (litCI "<ac:structured-macro"), notGtStar,
   Atom.plain (litCI "ac:name=\"jira\""), notGtStar, Atom.plain (litCI ">"),
   lazyAny, Atom.plain (litCI "<ac:parameter ac:name=\"key\">"),
   lazyAnyCap, Atom.plain (litCI "</ac:parameter>"),
   lazyAny, Atom.plain (litCI "</ac:structured-macro>")]

/-- Regex of the anchor pass:
`/<ac:structured-macro[^>]*ac:name="anchor"[^>]*>[\s\S]*?<ac:parameter ac:name="">([\s\S]*?)<\/ac:parameter>[\s\S]*?<\/ac:structured-macro>/gi`. -/
def anchorPat : List Atom :=
  [Atom.plain (litCI "<ac:structured-macro"), notGtStar,
   Atom.plain (litCI "ac:name=\"anchor\""), notGtStar, Atom.plain (litCI ">"),
   lazyAny, Atom.plain (litCI "<ac:parameter ac:name=\"\">"),
   lazyAnyCap, Atom.plain (litCI "</ac:parameter>"),
   lazyAny, Atom.plain (litCI "</ac:structured-macro>")]

/-- Regex of the unknown-macro fallback pass:
`/<ac:structured-macro[^>]*ac:name="([^"]*)"[^>]*>[\s\S]*?<\/ac:structured-macro>/gi`. -/
def unknownPat : List Atom :=
  [Atom.plain (litCI "<ac:structured-macro"), notGtStar,
   Atom.plain (litCI "ac:name=\""),
   Atom.group [SAtom.rep (fun c => c != '"') 0 none false],
   Atom.plain (litCI "\""), notGtStar, Atom.plain (litCI ">"),
   lazyAny, Atom.plain (litCI "</ac:structured-macro>")]

/-- Regex `/<ac:[^>]*\/>/gi` (self-closing `ac:` tags). -/
def acSelfPat : List Atom :=
  [Atom.plain (litCI "<ac:"), notGtStar, Atom.plain (litCI "/>")]

/-- Regex `/<\/?ac:[^>]*>/gi` (remaining `ac:` open and close tags). -/
def acTagPat : List Atom :=
  [Atom.plain (litCI "<"),
   Atom.plain (SAtom.rep (fun c => c == '/') 0 (some 1) false),
   Atom.plain (litCI "ac:"), notGtStar, Atom.plain (litCI ">")]

/-- Regex `/<ri:[^>]*\/>/gi` (self-closing `ri:` tags). -/
def riSelfPat : List Atom :=
  [Atom.plain (litCI "<ri:"), notGtStar, Atom.plain (litCI "/>")]

/-- Regex `/<\/?ri:[^>]*>/gi` (remaining `ri:` open and close tags). -/
def riTagPat : List Atom :=
  [Atom.plain (litCI "<"),
   Atom.plain (SAtom.rep (fun c => c == '/') 0 (some 1) false),
   Atom.plain (litCI "ri:"), notGtStar, Atom.plain (litCI ">")]

/-!  The replacement closures of `preprocessMacros`, and string helpers. -/

/-- Global single-character replacement (`replace(/x/g, r)` for a
one-character regex). -/
def replaceChar (c : Char) (r : List Char) (s : List Char) : List Char :=
  s.flatMap (fun x => if x = c then r else [x])

/-- Function `escapeHtml` of the source: escapes `&`, `<`, `>`, in that
order. -/
def escapeHtml (text : List Char) : List Char :=
  replaceChar '>' (str "&gt;")
    (replaceChar '<' (str "&lt;")
      (replaceChar '&' (str "&amp;") text))

/-- JavaScript `String.prototype.trim`: drop `jsWs` characters from both
ends. -/
def jsTrim (s : List Char) : List Char :=
  ((s.dropWhile jsWs).reverse.dropWhile jsWs).reverse

/-- ASCII upper-casing (JavaScript `toUpperCase` on the ASCII panel
names of the source), at the character-list level. -/
def upChars (s : List Char) : List Char := s.map Char.toUpper

/-- Replacement closure of the code-block pass: extract the `language`
parameter from the whole match, emit a `pre`/`code` wrapper around the
HTML-escaped CDATA capture. -/
def codeRepl (m : List Char) (caps : List (List Char)) : List Char × List (List Char) :=
  let code := caps.headD []
  let lang := match firstMatch langPat m with
    | some caps2 => jsTrim (caps2.headD [])
    | none => []
  (str "<pre><code class=\"language-" ++ lang ++ str "\">" ++
     escapeHtml code ++ str "</code></pre>", [])

/-- Replacement closure of the noformat pass. -/
def noformatRepl (_m : List Char) (caps : List (List Char)) : List Char × List (List Char) :=
  (str "<pre><code>" ++ escapeHtml (caps.headD []) ++ str "</code></pre>", [])

/-- The emoji marker of a panel kind, as in the nested conditional of the
source (`info → "i"`, `note → "!"`, `warning → "!!"`, otherwise `"*"`). -/
def panelEmoji (panelType : String) : List Char :=
  if panelType = "info" then str "i"
  else if panelType = "note" then str "!"
  else if panelType = "warning" then str "!!"
  else str "*"

/-- Replacement closure of a panel pass: extract the rich-text body from
the captured content (falling back to the raw content), wrap in a
blockquote with a bolded `[emoji] NAME:` label. -/
def panelRepl (panelType : String) (_m : List Char) (caps : List (List Char)) :
    List Char × List (List Char) :=
  let content := caps.headD []
  let body := match firstMatch richBodyPat content with
    | some caps2 => caps2.headD []
    | none => content
  (str "<blockquote><p><strong>[" ++ panelEmoji panelType ++ str "] " ++
     upChars panelType.data ++ str ":</strong></p>" ++ body ++ str "</blockquote>", [])

/-- Replacement closure of the expand pass: title parameter (default
`Details`), rich-text body (default empty), wrapped in `details`/`summary`. -/
def expandRepl (_m : List Char) (caps : List (List Char)) : List Char × List (List Char) :=
  let content := caps.headD []
  let title := match firstMatch titlePat content with
    | some caps2 => jsTrim (caps2.headD [])
    | none => str "Details"
  let body := match firstMatch richBodyPat content with
    | some caps2 => caps2.headD []
    | none => []
  (str "<details><summary>" ++ title ++ str "</summary>" ++ body ++ str "</details>", [])

/-- Replacement closure of the jira pass: inline code around the trimmed
issue key. -/
def jiraRepl (_m : List Char) (caps : List (List Char)) : List Char × List (List Char) :=
  (str "<code>" ++ jsTrim (caps.headD []) ++ str "</code>", [])

/-- Replacement closure of the anchor pass: empty anchor element with the
trimmed parameter as id. -/
def anchorRepl (_m : List Char) (caps : List (List Char)) : List Char × List (List Char) :=
  (str "<a id=\"" ++ jsTrim (caps.headD []) ++ str "\"></a>", [])

/-- Replacement closure of the unknown-macro fallback pass: an HTML
comment naming the macro, plus one warning string. -/
def unknownRepl (_m : List Char) (caps : List (List Char)) : List Char × List (List Char) :=
  let name := caps.headD []
  (str "<!-- Unsupported Confluence macro: " ++ name ++ str " -->",
   [str "Unsupported macro removed: " ++ name])

/-- Replacement closure of the four tag-stripping passes: empty text. -/
def dropRepl (_m : List Char) (_caps : List (List Char)) : List Char × List (List Char) :=
  ([], [])

/-- The panel loop order of the source. -/
def panelTypes : List String := ["info", "note", "warning", "tip"]

/-- The nine known-macro passes of `preprocessMacros`, in source order
(code, noformat, the four panels, expand, jira, anchor).  None of their
replacement closures pushes a warning. -/
def knownPasses (html : List Char) : List Char :=
  let h := (replacePass codeBlockPat codeRepl html).1
  let h := (replacePass noformatPat noformatRepl h).1
  let h := panelTypes.foldl (fun acc t => (replacePass (panelPat t) (panelRepl t) acc).1) h
  let h := (replacePass expandPat expandRepl h).1
  let h := (replacePass jiraPat jiraRepl h).1
  (replacePass anchorPat anchorRepl h).1

/-- The four final tag-stripping passes of `preprocessMacros`. -/
def stripVendorTags (html : List Char) : List Char :=
  let h := (replacePass acSelfPat dropRepl html).1
  let h := (replacePass acTagPat dropRepl h).1
  let h := (replacePass riSelfPat dropRepl h).1
  (replacePass riTagPat dropRepl h).1

/-- Method `preprocessMacros` of `ConfluenceConverter`: the nine
known-macro passes, then the warning-producing unknown-macro fallback,
then unconditional stripping of residual `ac:`/`ri:` tags. -/
def preprocessMacros (html : List Char) : List Char × List (List Char) :=
  let h := knownPasses html
  let fb := replacePass unknownPat unknownRepl h
  (stripVendorTags fb.1, fb.2)

/-!  Method `cleanHtml`, five global replaces. -/

/-- Replacement closure producing a constant string. -/
def constRepl (r : List Char) (_m : List Char) (_caps : List (List Char)) :
    List Char × List (List Char) := (r, [])

/-- The greedy `\s*`. -/
def wsStar : Atom := Atom.plain (SAtom.rep jsWs 0 none false)

/-- The greedy `\/?`. -/
def slashOpt : Atom := Atom.plain (SAtom.rep (fun c => c == '/') 0 (some 1) false)

/-- Regex `/<div class="confluence-information-macro[^"]*"[^>]*>/gi`. -/
def divCleanPat : List Atom :=
  [Atom.plain (litCI "<div class=\"confluence-information-macro"),
   Atom.plain (SAtom.rep (fun c => c != '"') 0 none false),
   Atom.plain (litCI "\""), notGtStar, Atom.plain (litCI ">")]

/-- Regex `/<td[^>]*>\s*<br\s*\/?>\s*/gi`. -/
def tdBrPat : List Atom :=
  [Atom.plain (litCI "<td"), notGtStar, Atom.plain (litCI ">"),
   wsStar, Atom.plain (litCI "<br"), wsStar, slashOpt, Atom.plain (litCI ">"), wsStar]

/-- Regex `/\s*<br\s*\/?>\s*<\/td>/gi`. -/
def brTdPat : List Atom :=
  [wsStar, Atom.plain (litCI "<br"), wsStar, slashOpt, Atom.plain (litCI ">"),
   wsStar, Atom.plain (litCI "</td>")]

/-- Regex `/<p>\s*<\/p>/gi`. -/
def emptyPPat : List Atom :=
  [Atom.plain (litCI "<p>"), wsStar, Atom.plain (litCI "</p>")]

/-- Regex `/<p>\s*<br\s*\/?>\s*<\/p>/gi`. -/
def pBrPPat : List Atom :=
  [Atom.plain (litCI "<p>"), wsStar, Atom.plain (litCI "<br"), wsStar, slashOpt,
   Atom.plain (litCI ">"), wsStar, Atom.plain (litCI "</p>")]

/-- Method `cleanHtml` of `ConfluenceConverter`. -/
def cleanHtml (html : List Char) : List Char :=
  let h := (replacePass divCleanPat (constRepl (str "<div>")) html).1
  let h := (replacePass tdBrPat (constRepl (str "<td>")) h).1
  let h := (replacePass brTdPat (constRepl (str "</td>")) h).1
  let h := (replacePass emptyPPat (constRepl []) h).1
  (replacePass pBrPPat (constRepl []) h).1

/-!  Method `postProcess`, five global replaces.  These regexes are
deterministic: each consists of single-character classes whose greedy
repetitions are bounded by a character the class excludes, so a match at
a position exists iff the maximal runs line up as coded below; the
leftmost-match/continue-after discipline is supplied by `scanA`. -/

/-- Space or tab, the class `[ \t]`. -/
def spaceTab (c : Char) : Bool := c = ' ' || c = '\t'

/-- Match step for `/[ \t]+$/gm → ""` (strip trailing horizontal
whitespace before a line terminator or the end of input): a match starts
here iff the character is `[ \t]` and the maximal `[ \t]` run from here
ends at a line boundary (any earlier stop of `[ \t]+` is followed by a
`[ \t]` character, never by `$`). -/
def trailWsTry : TryStep := fun s =>
  match s with
  | [] => none
  | c :: _ =>
    if spaceTab c then
      let rest := s.dropWhile spaceTab
      match rest with
      | [] => some ([], [], [])
      | r :: _ => if lineTerm r then some ([], [], rest) else none
    else none

/-- Match step for `/\n[ \t]*\n/g → "\n\n"`: a newline, a maximal
`[ \t]` run, and a closing newline (which is consumed). -/
def wsLineTry : TryStep := fun s =>
  match s with
  | '\n' :: s1 =>
    match s1.dropWhile spaceTab with
    | '\n' :: rest => some (str "\n\n", [], rest)
    | _ => none
  | _ => none

/-- Match step for `/\n{3,}/g → "\n\n"`: a maximal run of at least three
newlines, collapsed to two. -/
def tripleNLTry : TryStep := fun s =>
  match s with
  | '\n' :: s1 =>
    if 2 ≤ (s1.takeWhile (fun c => c == '\n')).length then
      some (str "\n\n", [], s1.dropWhile (fun c => c == '\n'))
    else none
  | _ => none

/-- Match step for `/([^\n])\n(#{1,6}\s)/g → "$1\n\n$2"` (blank line
before a heading).  `#{1,6}` greedy can only succeed on the whole maximal
`#` run (a shorter stop is followed by `#`, which `\s` rejects), so a
match needs that run to have length 1..6 followed by a `\s` character. -/
def headBeforeTry : TryStep := fun s =>
  match s with
  | c :: '\n' :: s2 =>
    if c = '\n' then none
    else
      let hs := s2.takeWhile (fun x => x == '#')
      if 1 ≤ hs.length ∧ hs.length ≤ 6 then
        match s2.dropWhile (fun x => x == '#') with
        | w :: s3 =>
          if jsWs w then some (c :: '\n' :: '\n' :: (hs ++ [w]), [], s3)
          else none
        | [] => none
      else none
  | _ => none

/-- Match step for `/(#{1,6}\s[^\n]+)\n([^\n#])/g → "$1\n\n$2"` (blank
line after a heading): a maximal `#` run of length 1..6, one `\s`
character, a nonempty maximal `[^\n]` run, a newline, and one character
that is neither `\n` nor `#`. -/
def headAfterTry : TryStep := fun s =>
  match s with
  | '#' :: _ =>
    let hs := s.takeWhile (fun x => x == '#')
    if hs.length ≤ 6 then
      match s.dropWhile (fun x => x == '#') with
      | w :: s3 =>
        if jsWs w then
          let r := s3.takeWhile (fun x => x != '\n')
          if 1 ≤ r.length then
            match s3.dropWhile (fun x => x != '\n') with
            | '\n' :: m :: s4 =>
              if m = '\n' ∨ m = '#' then none
              else some (hs ++ w :: r ++ '\n' :: '\n' :: [m], [], s4)
            | _ => none
          else none
        else none
      | [] => none
    else none
  | _ => none

/-- Run one global replace given by a match step. -/
def runPass (t : TryStep) (s : List Char) : List Char := (scanA t s.length s).1

/-- Method `postProcess` of `ConfluenceConverter`: strip trailing
whitespace per line, blank out whitespace-only lines, collapse three or
more newlines to two, and put blank lines around headings. -/
def postProcess (markdown : List Char) : List Char :=
  runPass headAfterTry
    (runPass headBeforeTry
      (runPass tripleNLTry
        (runPass wsLineTry
          (runPass trailWsTry markdown))))

/-!  Data model (`src/types.ts`) and document assembly. -/

/-- An id/title pair, as in the `ancestors` and `children` fields of
`ConfluencePage`. -/
structure PageRef where
  id : String
  title : String
  deriving DecidableEq, Repr

/-- Interface `ConfluencePage`. -/
structure ConfluencePage where
  id : String
  title : String
  body : String
  spaceKey : String
  version : Nat
  ancestors : List PageRef
  children : List PageRef
  labels : List String
  url : String
  deriving DecidableEq, Repr

/-- Interface `ConvertOptions`: three optional booleans. -/
structure ConvertOptions where
  frontMatter : Option Bool := none
  includeChildren : Option Bool := none
  convertMacros : Option Bool := none

/-- The `Required<ConvertOptions>` held by a converter instance. -/
structure ResolvedOptions where
  frontMatter : Bool
  includeChildren : Bool
  convertMacros : Bool
  deriving DecidableEq, Repr

/-- The constructor of `ConfluenceConverter`: each option defaults to
`true` (`options.x ?? true`). -/
def resolveOptions (o : ConvertOptions) : ResolvedOptions :=
  { frontMatter := o.frontMatter.getD true
    includeChildren := o.includeChildren.getD true
    convertMacros := o.convertMacros.getD true }

/-- Interface `ConversionResult`. -/
structure ConversionResult where
  markdown : String
  title : String
  pageId : String
  warnings : List String
  deriving DecidableEq, Repr

/-- JavaScript `Array.prototype.join(sep)`. -/
def joinSep (sep : List Char) : List (List Char) → List Char
  | [] => []
  | [l] => l
  | l :: rest => l ++ sep ++ joinSep sep rest

/-- The `title.replace(/"/g, '\\"')` escaping of `addFrontMatter`. -/
def escQuote (s : List Char) : List Char :=
  s.flatMap (fun c => if c = '"' then ['\\', '"'] else [c])

/-- The line array built by `addFrontMatter` before joining: delimiter,
`title`, `page_id`, `space`, a `labels` line only when the label list is
nonempty, `source`, closing delimiter, and two empty lines. -/
def frontMatterLines (page : ConfluencePage) : List (List Char) :=
  [str "---",
   str "title: \"" ++ escQuote page.title.data ++ str "\"",
   str "page_id: \"" ++ page.id.data ++ str "\"",
   str "space: \"" ++ page.spaceKey.data ++ str "\""] ++
  (if page.labels ≠ [] then
     [str "labels: [" ++
        joinSep (str ", ") (page.labels.map (fun l => str "\"" ++ l.data ++ str "\"")) ++
        str "]"]
   else []) ++
  [str "source: \"" ++ page.url.data ++ str "\"",
   str "---", [], []]

/-- Method `addFrontMatter` of `ConfluenceConverter`. -/
def addFrontMatter (page : ConfluencePage) : List Char :=
  joinSep (str "\n") (frontMatterLines page)

/-- Method `buildChildrenSection` of `ConfluenceConverter`: a leading
separator block with the `## Child Pages` heading, one `- <title>
(ID: <id>)` line per child in order, and a final empty line, joined by
newlines. -/
def buildChildrenSection (children : List PageRef) : List Char :=
  joinSep (str "\n")
    ([str "\n\n---\n\n## Child Pages\n"] ++
     children.map (fun c => str "- " ++ c.title.data ++ str " (ID: " ++ c.id.data ++ str ")") ++
     [[]])

/-- The macro stage of `convert`: `preprocessMacros` when `convertMacros`
is set, otherwise the body passes through with no warnings. -/
def preStage (opts : ResolvedOptions) (page : ConfluencePage) : List Char × List (List Char) :=
  if opts.convertMacros then preprocessMacros page.body.data else (page.body.data, [])

/-- The body markdown of `convert`: macro stage, `cleanHtml`, the
external HTML→Markdown engine `td` (the `turndown` call of the source),
then `postProcess`. -/
def bodyMarkdown (td : String → String) (opts : ResolvedOptions) (page : ConfluencePage) :
    List Char :=
  postProcess (td (String.mk (cleanHtml (preStage opts page).1))).data

/-- The document assembled by `convert` before its final
`markdown.trim() + "\n"`: optional front matter prepended, optional
children section appended (only when the child list is nonempty). -/
def assembledMarkdown (td : String → String) (opts : ResolvedOptions) (page : ConfluencePage) :
    List Char :=
  let m := bodyMarkdown td opts page
  let m := if opts.frontMatter then addFrontMatter page ++ m else m
  if opts.includeChildren ∧ page.children ≠ [] then
    m ++ buildChildrenSection page.children
  else m

/-- Method `convert` of `ConfluenceConverter`, with the external
HTML→Markdown engine as the parameter `td`. -/
def convert (td : String → String) (opts : ResolvedOptions) (page : ConfluencePage) :
    ConversionResult :=
  { markdown := String.mk (jsTrim (assembledMarkdown td opts page) ++ ['\n'])
    title := page.title
    pageId := page.id
    warnings := (preStage opts page).2.map String.mk }

/-!  Decidable string observations used by the claims. -/

/-- Containment of `needle` as a contiguous substring. -/
def containsSeq (needle : List Char) : List Char → Bool
  | [] => needle.isEmpty
  | c :: s => needle.isPrefixOf (c :: s) || containsSeq needle s

/-- The test `/[^\n]\n$/`: the text ends in exactly one newline preceded
by a non-newline character. -/
def endsOneNLb (s : List Char) : Bool :=
  match s.reverse with
  | '\n' :: c :: _ => c != '\n'
  | _ => false

/-- Lower-casing a text, for case-insensitive substring observations. -/
def lowerL (s : List Char) : List Char := s.map Char.toLower

/-!  Soundness facts about the matcher. -/

theorem litMatch_suffix {ci : Bool} :
    ∀ {l s r : List Char}, litMatch ci l s = some r → r <:+ s
  | [], s, r, h => by
    simp only [litMatch, Option.some.injEq] at h
    exact h ▸ List.suffix_refl s
  | p :: ps, [], r, h => by simp [litMatch] at h
  | p :: ps, c :: cs, r, h => by
    simp only [litMatch] at h
    split at h
    · exact (litMatch_suffix h).trans (List.suffix_cons c cs)
    · exact absurd h (by simp)

theorem litMatch_length {ci : Bool} :
    ∀ {l s r : List Char}, litMatch ci l s = some r → s.length = l.length + r.length
  | [], s, r, h => by
    simp only [litMatch, Option.some.injEq] at h
    simp [← h]
  | p :: ps, [], r, h => by simp [litMatch] at h
  | p :: ps, c :: cs, r, h => by
    simp only [litMatch] at h
    split at h
    · simpa [Nat.succ_add] using litMatch_length h
    · exact absurd h (by simp)

theorem litMatch_lower :
    ∀ {l s r : List Char}, litMatch true l s = some r → lowerL l <+: lowerL s
  | [], s, r, _ => by simp [lowerL]
  | p :: ps, [], r, h => by simp [litMatch] at h
  | p :: ps, c :: cs, r, h => by
    simp only [litMatch] at h
    split at h
    · rename_i hc
      have hpc : p.toLower = c.toLower := by
        simpa [chEq] using hc
      obtain ⟨t, ht⟩ := litMatch_lower h
      exact ⟨t, by simp [lowerL] at ht ⊢; simp [hpc, ht]⟩
    · exact absurd h (by simp)

theorem findSome?_mem {α β : Type} {f : α → Option β} :
    ∀ {l : List α} {b : β}, l.findSome? f = some b → ∃ a ∈ l, f a = some b
  | [], b, h => by simp [List.findSome?] at h
  | a :: l, b, h => by
    rw [List.findSome?] at h
    cases hf : f a with
    | some b' =>
      rw [hf] at h
      exact ⟨a, List.mem_cons_self a l, hf.trans h⟩
    | none =>
      rw [hf] at h
      obtain ⟨a', ha', hfa'⟩ := findSome?_mem h
      exact ⟨a', List.mem_cons_of_mem a ha', hfa'⟩

theorem repSuffixes_spec {p : Char → Bool} :
    ∀ {mx : Option Nat} {s t : List Char}, t ∈ repSuffixes p mx s →
      ∃ k, k ≤ s.length ∧ (∀ m, mx = some m → k ≤ m) ∧ t = s.drop k ∧
        ∀ x ∈ s.take k, p x = true
  | mx, [], t, h => by
    simp only [repSuffixes, List.mem_singleton] at h
    exact ⟨0, by simp, by simp, by simp [h], by simp⟩
  | mx, c :: s, t, h => by
    simp only [repSuffixes, List.mem_cons] at h
    rcases h with h | h
    · exact ⟨0, by simp, by simp, by simp [h], by simp⟩
    · by_cases hc : p c ∧ mx ≠ some 0
      · rw [if_pos hc] at h
        obtain ⟨k, hk, hkm, ht, hp⟩ := repSuffixes_spec h
        refine ⟨k + 1, by simpa using Nat.succ_le_succ hk, ?_, by simpa using ht, ?_⟩
        · intro m hm
          rcases hc with ⟨-, hne⟩
          have : decrMax mx = some (m - 1) := by simp [hm, decrMax]
          have hk' := hkm (m - 1) this
          have hm0 : m ≠ 0 := by
            intro h0
            exact hne (by simp [hm, h0])
          omega
        · intro x hx
          simp only [List.take_succ_cons, List.mem_cons] at hx
          rcases hx with rfl | hx
          · exact hc.1
          · exact hp x hx
      · rw [if_neg hc] at h
        simp at h

theorem matchSeqS_sound {α : Type} :
    ∀ {pats : List SAtom} (k : List Char → Option α) {s : List Char} {a : α},
      matchSeqS k pats s = some a → ∃ s', s' <:+ s ∧ k s' = some a
  | [], k, s, a, h => ⟨s, List.suffix_refl s, h⟩
  | SAtom.lit l ci :: rest, k, s, a, h => by
    simp only [matchSeqS] at h
    cases hm : litMatch ci l s with
    | none => rw [hm] at h; simp at h
    | some s1 =>
      rw [hm] at h
      simp only [Option.some_bind] at h
      obtain ⟨s', hs', hk⟩ := matchSeqS_sound k h
      exact ⟨s', hs'.trans (litMatch_suffix hm), hk⟩
  | SAtom.eol :: rest, k, s, a, h => by
    simp only [matchSeqS] at h
    split at h
    · exact matchSeqS_sound k h
    · exact Option.noConfusion h
  | SAtom.rep p mn mx lz :: rest, k, s, a, h => by
    simp only [matchSeqS] at h
    obtain ⟨t, ht, hmt⟩ := findSome?_mem h
    have htmem : t ∈ (repSuffixes p mx s).drop mn := by
      by_cases hlz : lz
      · simpa [hlz] using ht
      · simp only [if_neg hlz, List.mem_reverse] at ht
        exact ht
    obtain ⟨kk, -, -, htk, -⟩ := repSuffixes_spec (List.mem_of_mem_drop htmem)
    obtain ⟨s', hs', hk⟩ := matchSeqS_sound k hmt
    exact ⟨s', hs'.trans (htk ▸ List.drop_suffix kk s), hk⟩

theorem matchSeq_suffix :
    ∀ {pats : List Atom} {s rem : List Char} {caps : List (List Char)},
      matchSeq pats s = some (rem, caps) → rem <:+ s
  | [], s, rem, caps, h => by
    simp only [matchSeq, Option.some.injEq, Prod.mk.injEq] at h
    exact h.1 ▸ List.suffix_refl s
  | Atom.plain a :: rest, s, rem, caps, h => by
    simp only [matchSeq] at h
    obtain ⟨s', hs', hk⟩ := matchSeqS_sound _ h
    exact (matchSeq_suffix hk).trans hs'
  | Atom.group sub :: rest, s, rem, caps, h => by
    simp only [matchSeq] at h
    obtain ⟨s', hs', hk⟩ := matchSeqS_sound _ h
    cases hr : matchSeq rest s' with
    | none => rw [hr] at hk; exact Option.noConfusion hk
    | some r =>
      rw [hr] at hk
      simp only [Option.map_some', Option.some.injEq] at hk
      have : rem = r.1 := by
        have := congrArg Prod.fst hk
        simpa using this.symm
      exact this ▸ (matchSeq_suffix ((Prod.mk.eta (p := r)) ▸ hr)).trans hs'

theorem matchSeq_decomp {pats : List Atom} {s rem : List Char} {caps : List (List Char)}
    (h : matchSeq pats s = some (rem, caps)) :
    s.take (s.length - rem.length) ++ rem = s := by
  obtain ⟨pre, rfl⟩ := matchSeq_suffix h
  have hlen : (pre ++ rem).length - rem.length = pre.length := by simp
  rw [hlen, List.take_left]

theorem matchSeq_lit_head {l : List Char} {ci : Bool} {rest : List Atom}
    {s rem : List Char} {caps : List (List Char)}
    (h : matchSeq (Atom.plain (SAtom.lit l ci) :: rest) s = some (rem, caps)) :
    ∃ s1, litMatch ci l s = some s1 ∧ matchSeq rest s1 = some (rem, caps) := by
  simp only [matchSeq, matchSeqS] at h
  cases hm : litMatch ci l s with
  | none => rw [hm] at h; exact Option.noConfusion h
  | some s1 =>
    rw [hm] at h
    simp only [Option.some_bind] at h
    exact ⟨s1, rfl, h⟩

theorem matchSeq_rep_head {p : Char → Bool} {mn : Nat} {mx : Option Nat} {lz : Bool}
    {rest : List Atom} {s rem : List Char} {caps : List (List Char)}
    (h : matchSeq (Atom.plain (SAtom.rep p mn mx lz) :: rest) s = some (rem, caps)) :
    ∃ k, k ≤ s.length ∧ (∀ m, mx = some m → k ≤ m) ∧ (∀ x ∈ s.take k, p x = true) ∧
      matchSeq rest (s.drop k) = some (rem, caps) := by
  simp only [matchSeq, matchSeqS] at h
  obtain ⟨t, ht, hmt⟩ := findSome?_mem h
  have htmem : t ∈ (repSuffixes p mx s).drop mn := by
    by_cases hlz : lz
    · simpa [hlz] using ht
    · simp only [if_neg hlz, List.mem_reverse] at ht
      exact ht
  obtain ⟨k, hk, hkm, htk, hp⟩ := repSuffixes_spec (List.mem_of_mem_drop htmem)
  exact ⟨k, hk, hkm, hp, htk ▸ hmt⟩

theorem matchSeq_consume_lit {l : List Char} {ci : Bool} {rest : List Atom}
    {s rem : List Char} {caps : List (List Char)} (hl : l ≠ [])
    (h : matchSeq (Atom.plain (SAtom.lit l ci) :: rest) s = some (rem, caps)) :
    rem.length < s.length := by
  obtain ⟨s1, hm, hrest⟩ := matchSeq_lit_head h
  have h1 := litMatch_length hm
  have h2 := (matchSeq_suffix hrest).length_le
  have h3 : 0 < l.length := List.length_pos.mpr hl
  omega

theorem matchSeq_lower_lit {l : List Char} {rest : List Atom}
    {s rem : List Char} {caps : List (List Char)}
    (h : matchSeq (Atom.plain (SAtom.lit l true) :: rest) s = some (rem, caps)) :
    lowerL l <+: lowerL s := by
  obtain ⟨s1, hm, -⟩ := matchSeq_lit_head h
  exact litMatch_lower hm

/-- A match of a `<`, `\/?`, literal-tag pattern (the cleanup regexes
`/<\/?ac:[^>]*>/gi` and `/<\/?ri:[^>]*>/gi`) forces the lower-cased input
to begin with `<tag` or `</tag`. -/
theorem matchSeq_optSlash_lower {tag : String} {rest : List Atom}
    {s rem : List Char} {caps : List (List Char)}
    (h : matchSeq (Atom.plain (litCI "<") ::
        Atom.plain (SAtom.rep (fun c => c == '/') 0 (some 1) false) ::
        Atom.plain (litCI tag) :: rest) s = some (rem, caps)) :
    (str "<" ++ lowerL (str tag)) <+: lowerL s ∨
      (str "</" ++ lowerL (str tag)) <+: lowerL s := by
  obtain ⟨s1, hm, hrest⟩ := matchSeq_lit_head h
  have hs1 : ∃ c, s = c :: s1 ∧ c.toLower = '<' := by
    cases s with
    | nil => simp [litMatch, litCI, str] at hm
    | cons c cs =>
      simp only [litCI, str, litMatch] at hm
      split at hm
      · rename_i hc
        simp only [litMatch, Option.some.injEq] at hm
        refine ⟨c, by rw [hm], ?_⟩
        have : ('<').toLower = c.toLower := by simpa [chEq] using hc
        simpa using this.symm
      · exact Option.noConfusion hm
  obtain ⟨c, rfl, hc⟩ := hs1
  obtain ⟨k, hk, hkm, hp, hrest2⟩ := matchSeq_rep_head hrest
  have hk1 : k ≤ 1 := hkm 1 rfl
  have hlow : lowerL (str tag) <+: lowerL (s1.drop k) := matchSeq_lower_lit hrest2
  interval_cases k
  · left
    obtain ⟨t, ht⟩ := hlow
    refine ⟨t, ?_⟩
    simp only [List.drop_zero] at ht
    have h2 : lowerL (c :: s1) = '<' :: lowerL s1 := by simp [lowerL, hc]
    rw [h2, ← ht, show str "<" = ['<'] from rfl]
    simp
  · right
    cases s1 with
    | nil => simp at hk
    | cons d s2 =>
      have hd : d = '/' := by
        have := hp d (by simp)
        simpa using this
      obtain ⟨t, ht⟩ := hlow
      refine ⟨t, ?_⟩
      simp only [List.drop_succ_cons, List.drop_zero] at ht
      have hdl : ('/').toLower = '/' := by decide
      have h2 : lowerL (c :: d :: s2) = '<' :: '/' :: lowerL s2 := by
        simp [lowerL, hc, hd, hdl]
      rw [h2, ← ht, show str "</" = ['<', '/'] from rfl]
      simp

/-!  The substring observations, related to list infixes. -/

theorem containsSeq_iff {n : List Char} :
    ∀ {h : List Char}, containsSeq n h = true ↔ n <:+: h
  | [] => by
    simp only [containsSeq, List.isEmpty_iff]
    constructor
    · intro hn
      simp [hn]
    · exact List.eq_nil_of_infix_nil
  | c :: h' => by
    simp only [containsSeq, Bool.or_eq_true, List.isPrefixOf_iff_prefix,
      containsSeq_iff (h := h')]
    constructor
    · rintro (hp | hi)
      · exact hp.isInfix
      · exact List.infix_cons hi
    · intro hi
      obtain ⟨u, v, huv⟩ := hi
      cases u with
      | nil => exact Or.inl ⟨v, by simpa using huv⟩
      | cons x u' =>
        exact Or.inr ⟨u', v, by simpa using congrArg List.tail huv⟩

theorem lowerL_suffix {u s : List Char} (h : u <:+ s) : lowerL u <:+ lowerL s := by
  obtain ⟨t, rfl⟩ := h
  exact ⟨lowerL t, (List.map_append _ t u).symm⟩

theorem lowerL_append (a b : List Char) : lowerL (a ++ b) = lowerL a ++ lowerL b :=
  List.map_append _ a b

/-!  Identity of a replace pass on text free of its trigger substrings. -/

theorem scanA_id {t : TryStep} :
    ∀ (fuel : Nat) (s : List Char), (∀ u, u <:+ s → u ≠ [] → t u = none) →
      scanA t fuel s = (s, [])
  | fuel, [], _ => by cases fuel <;> rfl
  | 0, c :: s, _ => rfl
  | fuel + 1, c :: s, h => by
    have hc : t (c :: s) = none := h (c :: s) (List.suffix_refl _) (by simp)
    have ih := scanA_id fuel s (fun u hu hne => h u (hu.trans (List.suffix_cons c s)) hne)
    simp [scanA, hc, ih]

theorem replacePass_id {pats : List Atom}
    {f : List Char → List (List Char) → List Char × List (List Char)}
    {s : List Char} (needles : List (List Char))
    (hno : ∀ nd ∈ needles, containsSeq nd (lowerL s) = false)
    (hmatch : ∀ u rem caps, matchSeq pats u = some (rem, caps) →
      ∃ nd ∈ needles, nd <+: lowerL u) :
    replacePass pats f s = (s, []) := by
  apply scanA_id
  intro u hu _
  unfold regexTry
  cases hm : matchSeq pats u with
  | none => rfl
  | some r =>
    exfalso
    obtain ⟨nd, hnd, hpre⟩ := hmatch u r.1 r.2 (by simpa using hm)
    have hinf : nd <:+: lowerL s :=
      List.infix_iff_prefix_suffix.mpr ⟨lowerL u, hpre, lowerL_suffix hu⟩
    have := containsSeq_iff.mpr hinf
    rw [hno nd hnd] at this
    exact Bool.noConfusion this

/-!  A specification relation for one global replace pass, and its
soundness: the pass partitions its input, left to right, into skipped
characters (no match of the pattern starts there) and leftmost matches,
each replaced through the replacement closure, with replacement texts and
warning lists concatenated in document order. -/

inductive RegexTrace (pats : List Atom)
    (f : List Char → List (List Char) → List Char × List (List Char)) :
    List Char → List Char × List (List Char) → Prop where
  | nil : RegexTrace pats f [] ([], [])
  | skip (c : Char) (s o : List Char) (w : List (List Char)) :
      matchSeq pats (c :: s) = none →
      RegexTrace pats f s (o, w) →
      RegexTrace pats f (c :: s) (c :: o, w)
  | hit (m rem o : List Char) (caps w : List (List Char)) :
      m ≠ [] →
      matchSeq pats (m ++ rem) = some (rem, caps) →
      RegexTrace pats f rem (o, w) →
      RegexTrace pats f (m ++ rem) ((f m caps).1 ++ o, (f m caps).2 ++ w)

theorem regexTry_eq {pats : List Atom}
    {f : List Char → List (List Char) → List Char × List (List Char)}
    {s rem : List Char} {caps : List (List Char)}
    (hm : matchSeq pats s = some (rem, caps)) (hlt : rem.length < s.length) :
    regexTry pats f s = some ((f (s.take (s.length - rem.length)) caps).1,
      (f (s.take (s.length - rem.length)) caps).2, s.drop (s.length - rem.length)) := by
  unfold regexTry
  rw [hm]
  have hn0 : s.length - rem.length ≠ 0 := by omega
  simp [hn0]

theorem scanA_trace {pats : List Atom}
    {f : List Char → List (List Char) → List Char × List (List Char)}
    (hne : ∀ s rem caps, matchSeq pats s = some (rem, caps) → rem.length < s.length) :
    ∀ (fuel : Nat) (s : List Char), s.length ≤ fuel →
      RegexTrace pats f s (scanA (regexTry pats f) fuel s)
  | fuel, [], _ => by
    cases fuel <;> exact RegexTrace.nil
  | 0, c :: s, h => by simp at h
  | fuel + 1, c :: s, h => by
    cases hm : matchSeq pats (c :: s) with
    | none =>
      have ht : regexTry pats f (c :: s) = none := by
        unfold regexTry
        rw [hm]
      have ih := scanA_trace (f := f) hne fuel s (by simpa using Nat.le_of_succ_le_succ h)
      have ih' : RegexTrace pats f s ((scanA (regexTry pats f) fuel s).1,
          (scanA (regexTry pats f) fuel s).2) := by
        rw [Prod.mk.eta]
        exact ih
      have hsc : scanA (regexTry pats f) (fuel + 1) (c :: s) =
          (c :: (scanA (regexTry pats f) fuel s).1, (scanA (regexTry pats f) fuel s).2) := by
        simp [scanA, ht]
      rw [hsc]
      exact RegexTrace.skip c s _ _ hm ih'
    | some r =>
      obtain ⟨rem, caps⟩ := r
      have hlt : rem.length < (c :: s).length := hne _ _ _ hm
      have ht := regexTry_eq (f := f) hm hlt
      have hdec := matchSeq_decomp hm
      set n := (c :: s).length - rem.length with hn
      set m := (c :: s).take n with hmdef
      have hn0 : n ≠ 0 := by omega
      have hm_ne : m ≠ [] := by
        rw [hmdef]
        simp [List.take_eq_nil_iff, hn0]
      have hmlen : m.length = n := by
        have hlen := congrArg List.length hdec
        simp only [List.length_append] at hlen
        omega
      have hdrop : (c :: s).drop n = rem := by
        conv_lhs => rw [← hdec, ← hmlen, List.drop_left]
      have hrem_le : rem.length ≤ fuel := by
        have h2 : s.length + 1 ≤ fuel + 1 := by simpa using h
        have h3 : (c :: s).length = s.length + 1 := by simp
        omega
      have ih := scanA_trace (f := f) hne fuel rem hrem_le
      have ih' : RegexTrace pats f rem ((scanA (regexTry pats f) fuel rem).1,
          (scanA (regexTry pats f) fuel rem).2) := by
        rw [Prod.mk.eta]
        exact ih
      have hhit := RegexTrace.hit (f := f) m rem _ caps _ hm_ne (hdec.symm ▸ hm) ih'
      have hsc : scanA (regexTry pats f) (fuel + 1) (c :: s) =
          ((f m caps).1 ++ (scanA (regexTry pats f) fuel rem).1,
           (f m caps).2 ++ (scanA (regexTry pats f) fuel rem).2) := by
        rw [hdrop] at ht
        simp [scanA, ht]
      rw [hsc, ← hdec]
      exact hhit

theorem replacePass_trace {pats : List Atom}
    {f : List Char → List (List Char) → List Char × List (List Char)}
    (hne : ∀ s rem caps, matchSeq pats s = some (rem, caps) → rem.length < s.length)
    (s : List Char) :
    RegexTrace pats f s (replacePass pats f s) :=
  scanA_trace hne s.length s (Nat.le_refl _)

theorem RegexTrace.warnings_mem {pats : List Atom}
    {f : List Char → List (List Char) → List Char × List (List Char)}
    {s : List Char} {r : List Char × List (List Char)}
    (h : RegexTrace pats f s r) :
    ∀ x ∈ r.2, ∃ m caps, m ≠ [] ∧
      (∃ rem, matchSeq pats (m ++ rem) = some (rem, caps)) ∧ x ∈ (f m caps).2 := by
  induction h with
  | nil => intro x hx; simp at hx
  | skip c s o w hm htr ih => exact ih
  | hit m rem o caps w hm hmatch htr ih =>
    intro x hx
    rcases List.mem_append.mp hx with hx | hx
    · exact ⟨m, caps, hm, ⟨rem, hmatch⟩, hx⟩
    · exact ih x hx

/-- Consumption of at least one character by any match of a pattern whose
first element is a nonempty case-insensitive literal. -/
theorem pat_consumes {ls : String} {rest : List Atom} (hl : str ls ≠ []) :
    ∀ s rem caps, matchSeq (Atom.plain (litCI ls) :: rest) s = some (rem, caps) →
      rem.length < s.length :=
  fun _ _ _ h => matchSeq_consume_lit hl h

/-!  Facts about JavaScript trim (`jsTrim`). -/

theorem infix_dropWhile {P : Char → Bool} {n : List Char} {c0 : Char} {n' : List Char}
    (hn : n = c0 :: n') (hc : P c0 = false) :
    ∀ {s : List Char}, n <:+: s → n <:+: s.dropWhile P
  | [], hi => by simpa using hi
  | c :: s', hi => by
    rw [List.dropWhile_cons]
    split
    · rename_i hPc
      rcases List.infix_cons_iff.mp hi with hp | hi'
      · exfalso
        obtain ⟨t, ht⟩ := hp
        rw [hn, List.cons_append] at ht
        have hc0 : c0 = c := (List.cons_eq_cons.mp ht).1
        rw [hc0, hPc] at hc
        exact Bool.noConfusion hc
      · exact infix_dropWhile hn hc hi'
    · exact hi

theorem infix_jsTrim {n : List Char} {c0 cl : Char} {n1 n2 : List Char}
    (hhead : n = c0 :: n1) (hlast : n = n2 ++ [cl])
    (hc0 : jsWs c0 = false) (hcl : jsWs cl = false)
    {s : List Char} (hi : n <:+: s) : n <:+: jsTrim s := by
  unfold jsTrim
  have h1 : n <:+: s.dropWhile jsWs := infix_dropWhile hhead hc0 hi
  have h2 : n.reverse <:+: (s.dropWhile jsWs).reverse := List.reverse_infix.mpr h1
  have hrev : n.reverse = cl :: n2.reverse := by rw [hlast]; simp
  have h3 := infix_dropWhile hrev hcl h2
  rw [← List.reverse_infix]
  simpa using h3

theorem jsTrim_isInfix (s : List Char) : jsTrim s <:+: s := by
  unfold jsTrim
  have h1 : ((s.dropWhile jsWs).reverse.dropWhile jsWs).reverse <+: s.dropWhile jsWs := by
    rw [← List.reverse_suffix]
    simpa using List.dropWhile_suffix (l := (s.dropWhile jsWs).reverse) jsWs
  exact h1.isInfix.trans (List.dropWhile_suffix jsWs).isInfix

theorem jsTrim_last (s : List Char) :
    jsTrim s = [] ∨ ∃ t c, jsTrim s = t ++ [c] ∧ jsWs c = false := by
  unfold jsTrim
  cases hd : (s.dropWhile jsWs).reverse.dropWhile jsWs with
  | nil => exact Or.inl (by simp [hd])
  | cons c t =>
    right
    refine ⟨t.reverse, c, by simp [hd], ?_⟩
    have hne : (s.dropWhile jsWs).reverse.dropWhile jsWs ≠ [] := by simp [hd]
    have := List.head_dropWhile_not jsWs ((s.dropWhile jsWs).reverse) hne
    simpa [hd] using this

theorem prefix_jsTrim_append {a : List Char} {c0 cl : Char} {a1 a2 : List Char}
    (hhead : a = c0 :: a1) (hlast : a = a2 ++ [cl])
    (hc0 : jsWs c0 = false) (hcl : jsWs cl = false) (b : List Char) :
    a <+: jsTrim (a ++ b) := by
  unfold jsTrim
  have h1 : (a ++ b).dropWhile jsWs = a ++ b := by
    rw [hhead, List.cons_append, List.dropWhile_cons, hc0]
    simp
  rw [h1, List.reverse_append, hlast]
  have hrev : (a2 ++ [cl]).reverse = cl :: a2.reverse := by simp
  rw [hrev, List.dropWhile_append]
  split
  · rw [List.dropWhile_cons, hcl]
    simp
  · rw [List.reverse_append]
    have : (cl :: a2.reverse).reverse = a2 ++ [cl] := by simp
    rw [this]
    exact List.prefix_append _ _

theorem infix_append_singleton {p t : List Char} {c : Char} {p2 : List Char} {cl : Char}
    (hlast : p = p2 ++ [cl]) (hne : cl ≠ c) (hi : p <:+: t ++ [c]) : p <:+: t := by
  have h1 : p.reverse <:+: (t ++ [c]).reverse := List.reverse_infix.mpr hi
  rw [List.reverse_append] at h1
  simp only [List.reverse_singleton, List.singleton_append] at h1
  have hrev : p.reverse = cl :: p2.reverse := by rw [hlast]; simp
  rcases List.infix_cons_iff.mp h1 with hp | hi' 
  · exfalso
    obtain ⟨u, hu⟩ := hp
    rw [hrev, List.cons_append] at hu
    exact hne (List.cons_eq_cons.mp hu).1
  · rw [← List.reverse_infix]
    simpa using hi'

/-!  Identity of `preprocessMacros` on bodies free of vendor-namespace
markup: every pass's pattern forces a case-insensitive occurrence of
`<ac:`, `</ac:`, `<ri:` or `</ri:` at the match position. -/

theorem vendor_prefix_of_match {ls : String} {rest : List Atom}
    {u rem : List Char} {caps : List (List Char)} (nd : List Char)
    (hnd : nd <+: lowerL (str ls))
    (h : matchSeq (Atom.plain (litCI ls) :: rest) u = some (rem, caps)) :
    nd <+: lowerL u :=
  hnd.trans (matchSeq_lower_lit h)

/-- The four vendor trigger substrings. -/
def vendorNeedles : List (List Char) :=
  [str "<ac:", str "</ac:", str "<ri:", str "</ri:"]

theorem replacePass_id_vendor {pats : List Atom}
    {f : List Char → List (List Char) → List Char × List (List Char)} {html : List Char}
    (h1 : containsSeq (str "<ac:") (lowerL html) = false)
    (h2 : containsSeq (str "</ac:") (lowerL html) = false)
    (h3 : containsSeq (str "<ri:") (lowerL html) = false)
    (h4 : containsSeq (str "</ri:") (lowerL html) = false)
    (hm : ∀ u rem caps, matchSeq pats u = some (rem, caps) →
      ∃ nd ∈ vendorNeedles, nd <+: lowerL u) :
    replacePass pats f html = (html, []) := by
  apply replacePass_id vendorNeedles
  · intro nd hnd
    simp only [vendorNeedles, List.mem_cons, List.not_mem_nil, or_false] at hnd
    rcases hnd with rfl | rfl | rfl | rfl
    exacts [h1, h2, h3, h4]
  · exact hm

theorem preprocessMacros_id {html : List Char}
    (h1 : containsSeq (str "<ac:") (lowerL html) = false)
    (h2 : containsSeq (str "</ac:") (lowerL html) = false)
    (h3 : containsSeq (str "<ri:") (lowerL html) = false)
    (h4 : containsSeq (str "</ri:") (lowerL html) = false) :
    preprocessMacros html = (html, []) := by
  have hac : ∀ {rest : List Atom} {u rem : List Char} {caps : List (List Char)},
      matchSeq (Atom.plain (litCI "<ac:structured-macro") :: rest) u = some (rem, caps) →
      ∃ nd ∈ vendorNeedles, nd <+: lowerL u := by
    intro rest u rem caps h
    exact ⟨str "<ac:", by simp [vendorNeedles],
      vendor_prefix_of_match (str "<ac:") (by decide) h⟩
  have e1 : replacePass codeBlockPat codeRepl html = (html, []) :=
    replacePass_id_vendor h1 h2 h3 h4 (fun u rem caps h => hac h)
  have e2 : replacePass noformatPat noformatRepl html = (html, []) :=
    replacePass_id_vendor h1 h2 h3 h4 (fun u rem caps h => hac h)
  have epanel : ∀ t, replacePass (panelPat t) (panelRepl t) html = (html, []) := fun t =>
    replacePass_id_vendor h1 h2 h3 h4 (fun u rem caps h => hac h)
  have e3 : replacePass expandPat expandRepl html = (html, []) :=
    replacePass_id_vendor h1 h2 h3 h4 (fun u rem caps h => hac h)
  have e4 : replacePass jiraPat jiraRepl html = (html, []) :=
    replacePass_id_vendor h1 h2 h3 h4 (fun u rem caps h => hac h)
  have e5 : replacePass anchorPat anchorRepl html = (html, []) :=
    replacePass_id_vendor h1 h2 h3 h4 (fun u rem caps h => hac h)
  have e6 : replacePass unknownPat unknownRepl html = (html, []) :=
    replacePass_id_vendor h1 h2 h3 h4 (fun u rem caps h => hac h)
  have e7 : replacePass acSelfPat dropRepl html = (html, []) :=
    replacePass_id_vendor h1 h2 h3 h4 (fun u rem caps h =>
      ⟨str "<ac:", by simp [vendorNeedles],
        vendor_prefix_of_match (str "<ac:") (by decide) h⟩)
  have e8 : replacePass riSelfPat dropRepl html = (html, []) :=
    replacePass_id_vendor h1 h2 h3 h4 (fun u rem caps h =>
      ⟨str "<ri:", by simp [vendorNeedles],
        vendor_prefix_of_match (str "<ri:") (by decide) h⟩)
  have e9 : replacePass acTagPat dropRepl html = (html, []) :=
    replacePass_id_vendor h1 h2 h3 h4 (fun u rem caps h => by
      rcases matchSeq_optSlash_lower h with hp | hp
      · exact ⟨str "<ac:", by simp [vendorNeedles],
          (show str "<" ++ lowerL (str "ac:") = str "<ac:" by decide) ▸ hp⟩
      · exact ⟨str "</ac:", by simp [vendorNeedles],
          (show str "</" ++ lowerL (str "ac:") = str "</ac:" by decide) ▸ hp⟩)
  have e10 : replacePass riTagPat dropRepl html = (html, []) :=
    replacePass_id_vendor h1 h2 h3 h4 (fun u rem caps h => by
      rcases matchSeq_optSlash_lower h with hp | hp
      · exact ⟨str "<ri:", by simp [vendorNeedles],
          (show str "<" ++ lowerL (str "ri:") = str "<ri:" by decide) ▸ hp⟩
      · exact ⟨str "</ri:", by simp [vendorNeedles],
          (show str "</" ++ lowerL (str "ri:") = str "</ri:" by decide) ▸ hp⟩)
  have hknown : knownPasses html = html := by
    simp only [knownPasses, panelTypes, List.foldl_cons, List.foldl_nil,
      e1, e2, epanel "info", epanel "note", epanel "warning", epanel "tip", e3, e4, e5]
  have hstrip : stripVendorTags html = html := by
    simp only [stripVendorTags, e7, e8, e9, e10]
  simp only [preprocessMacros, hknown, e6, hstrip]

/-!  Newline-run observations for the blank-line bound of `postProcess`. -/

/-- The length of the leading newline run. -/
def leadNL (s : List Char) : Nat := (s.takeWhile (fun c => c == '\n')).length

/-- Absence of three consecutive newlines. -/
def noT3 (s : List Char) : Prop := containsSeq (str "\n\n\n") s = false

theorem leadNL_cons_nl (s : List Char) : leadNL ('\n' :: s) = leadNL s + 1 := by
  simp [leadNL, List.takeWhile_cons]

theorem leadNL_cons_other {c : Char} (h : ¬c = '\n') (s : List Char) :
    leadNL (c :: s) = 0 := by
  simp [leadNL, List.takeWhile_cons, h]

theorem replicateNL_pref :
    ∀ (k : Nat) (s : List Char), (List.replicate k '\n').isPrefixOf s = true ↔ k ≤ leadNL s
  | 0, s => by simp [List.isPrefixOf]
  | k + 1, [] => by simp [List.replicate, List.isPrefixOf, leadNL]
  | k + 1, c :: s => by
    by_cases hc : c = '\n'
    · subst hc
      rw [leadNL_cons_nl]
      simp only [List.replicate, List.isPrefixOf, beq_self_eq_true, Bool.true_and]
      rw [replicateNL_pref k s]
      omega
    · have hbc : ('\n' == c) = false := by
        rw [beq_eq_false_iff_ne]
        exact fun h => hc h.symm
      rw [leadNL_cons_other hc]
      simp [List.replicate, List.isPrefixOf, hbc]

theorem noT3_cons {c : Char} {s : List Char} :
    noT3 (c :: s) ↔ noT3 s ∧ ¬(3 ≤ leadNL (c :: s)) := by
  have hrep : (str "\n\n\n") = List.replicate 3 '\n' := rfl
  simp only [noT3, containsSeq, Bool.or_eq_false_iff]
  rw [hrep]
  constructor
  · rintro ⟨h1, h2⟩
    refine ⟨h2, fun hle => ?_⟩
    rw [(replicateNL_pref 3 (c :: s)).mpr hle] at h1
    exact Bool.noConfusion h1
  · rintro ⟨h1, h2⟩
    refine ⟨?_, h1⟩
    cases hp : (List.replicate 3 '\n').isPrefixOf (c :: s) with
    | false => rfl
    | true => exact absurd ((replicateNL_pref 3 (c :: s)).mp hp) h2

theorem leadNL_cons_three {c : Char} {s : List Char} :
    3 ≤ leadNL (c :: s) ↔ c = '\n' ∧ 2 ≤ leadNL s := by
  by_cases hc : c = '\n'
  · subst hc
    rw [leadNL_cons_nl]
    simp only [true_and]
    omega
  · rw [leadNL_cons_other hc]
    simp [hc]

theorem noT3_mono {l s : List Char} (hi : l <:+: s) (h : noT3 s) : noT3 l := by
  simp only [noT3] at h ⊢
  cases hc : containsSeq (str "\n\n\n") l with
  | false => rfl
  | true =>
    have := containsSeq_iff.mpr ((containsSeq_iff.mp hc).trans hi)
    rw [h] at this
    exact Bool.noConfusion this

theorem noT3_tail {c : Char} {s : List Char} (h : noT3 (c :: s)) : noT3 s :=
  (noT3_cons.mp h).1

theorem noT3_append_left {a : List Char} (ha : ∀ x ∈ a, ¬x = '\n') {b : List Char} :
    noT3 (a ++ b) ↔ noT3 b := by
  induction a with
  | nil => simp
  | cons x a' ih =>
    have hx : ¬x = '\n' := ha x (by simp)
    rw [List.cons_append, noT3_cons, ih (fun y hy => ha y (by simp [hy]))]
    simp [leadNL_cons_other hx]

theorem leadNL_append_head {a : List Char} {x : Char} {a' b : List Char}
    (hx : a = x :: a') (hxn : ¬x = '\n') : leadNL (a ++ b) = 0 := by
  rw [hx]
  exact leadNL_cons_other hxn _

/-!  Step equations for `scanA`. -/

theorem scanA_nil {t : TryStep} {fuel : Nat} : scanA t fuel [] = ([], []) := by
  cases fuel <;> rfl

theorem scanA_cons_some {t : TryStep} {fuel : Nat} {c : Char} {s repl : List Char}
    {ws : List (List Char)} {cont : List Char}
    (h : t (c :: s) = some (repl, ws, cont)) :
    scanA t (fuel + 1) (c :: s) =
      (repl ++ (scanA t fuel cont).1, ws ++ (scanA t fuel cont).2) := by
  simp [scanA, h]

theorem scanA_cons_none {t : TryStep} {fuel : Nat} {c : Char} {s : List Char}
    (h : t (c :: s) = none) :
    scanA t (fuel + 1) (c :: s) =
      (c :: (scanA t fuel s).1, (scanA t fuel s).2) := by
  simp [scanA, h]

/-!  The blank-line bound: the newline-collapsing pass emits no run of
three newlines, and the two heading passes preserve that. -/

theorem noT3_nil : noT3 [] := rfl

theorem tripleNLTry_nonNL {c : Char} {s : List Char} (h : ¬c = '\n') :
    tripleNLTry (c :: s) = none := by
  unfold tripleNLTry
  split
  · rename_i s1 heq
    exact absurd (List.cons_eq_cons.mp heq).1 h
  · rfl

theorem tripleNLTry_short {s : List Char}
    (h : ¬2 ≤ (s.takeWhile (fun c => c == '\n')).length) :
    tripleNLTry ('\n' :: s) = none := by
  unfold tripleNLTry
  simp [h]

theorem tripleNLTry_run {s : List Char}
    (h : 2 ≤ (s.takeWhile (fun c => c == '\n')).length) :
    tripleNLTry ('\n' :: s) = some (str "\n\n", [], s.dropWhile (fun c => c == '\n')) := by
  unfold tripleNLTry
  simp [h]

theorem leadNL_dropNL : ∀ (s : List Char),
    leadNL (s.dropWhile (fun c => c == '\n')) = 0
  | [] => rfl
  | c :: s => by
    rw [List.dropWhile_cons]
    split
    · exact leadNL_dropNL s
    · rename_i hc
      exact leadNL_cons_other (by simpa using hc) s

theorem leadNL_scanP3 : ∀ (fuel : Nat) (s : List Char), s.length ≤ fuel →
    leadNL ((scanA tripleNLTry fuel s).1) = min (leadNL s) 2
  | fuel, [], _ => by simp [scanA_nil, leadNL]
  | 0, c :: s, h => by simp at h
  | fuel + 1, c :: s, h => by
    have hfs : s.length ≤ fuel := by simpa using Nat.le_of_succ_le_succ h
    by_cases hc : c = '\n'
    · subst hc
      by_cases hrun : 2 ≤ (s.takeWhile (fun c => c == '\n')).length
      · rw [scanA_cons_some (tripleNLTry_run hrun)]
        have hrest : (s.dropWhile (fun c => c == '\n')).length ≤ fuel :=
          le_trans (List.Sublist.length_le (List.dropWhile_sublist _)) hfs
        have h0 := leadNL_scanP3 fuel _ hrest
        rw [leadNL_dropNL] at h0
        have hsh : (str "\n\n" ++ (scanA tripleNLTry fuel
            (s.dropWhile (fun c => c == '\n'))).1) =
            '\n' :: '\n' :: (scanA tripleNLTry fuel
              (s.dropWhile (fun c => c == '\n'))).1 := rfl
        rw [hsh, leadNL_cons_nl, leadNL_cons_nl, h0, leadNL_cons_nl]
        have hrun' : 2 ≤ leadNL s := hrun
        omega
      · rw [scanA_cons_none (tripleNLTry_short hrun)]
        have h0 := leadNL_scanP3 fuel s hfs
        rw [leadNL_cons_nl, leadNL_cons_nl, h0]
        have hrun' : ¬2 ≤ leadNL s := hrun
        omega
    · rw [scanA_cons_none (tripleNLTry_nonNL hc)]
      rw [leadNL_cons_other hc, leadNL_cons_other hc]
      simp

theorem noT3_scanP3 : ∀ (fuel : Nat) (s : List Char), s.length ≤ fuel →
    noT3 ((scanA tripleNLTry fuel s).1)
  | fuel, [], _ => by
    rw [scanA_nil]
    exact noT3_nil
  | 0, c :: s, h => by simp at h
  | fuel + 1, c :: s, h => by
    have hfs : s.length ≤ fuel := by simpa using Nat.le_of_succ_le_succ h
    by_cases hc : c = '\n'
    · subst hc
      by_cases hrun : 2 ≤ (s.takeWhile (fun c => c == '\n')).length
      · rw [scanA_cons_some (tripleNLTry_run hrun)]
        have hrest : (s.dropWhile (fun c => c == '\n')).length ≤ fuel :=
          le_trans (List.Sublist.length_le (List.dropWhile_sublist _)) hfs
        have h0 := leadNL_scanP3 fuel _ hrest
        rw [leadNL_dropNL] at h0
        have hih := noT3_scanP3 fuel _ hrest
        have hsh : (str "\n\n" ++ (scanA tripleNLTry fuel
            (s.dropWhile (fun c => c == '\n'))).1) =
            '\n' :: '\n' :: (scanA tripleNLTry fuel
              (s.dropWhile (fun c => c == '\n'))).1 := rfl
        rw [hsh, noT3_cons, noT3_cons]
        refine ⟨⟨hih, ?_⟩, ?_⟩
        · rw [leadNL_cons_nl, h0]
          omega
        · rw [leadNL_cons_nl, leadNL_cons_nl, h0]
          omega
      · rw [scanA_cons_none (tripleNLTry_short hrun)]
        have h0 := leadNL_scanP3 fuel s hfs
        have hih := noT3_scanP3 fuel s hfs
        rw [noT3_cons]
        refine ⟨hih, ?_⟩
        rw [leadNL_cons_nl, h0]
        have hrun' : ¬2 ≤ leadNL s := hrun
        omega
    · rw [scanA_cons_none (tripleNLTry_nonNL hc)]
      have hih := noT3_scanP3 fuel s hfs
      rw [noT3_cons]
      refine ⟨hih, ?_⟩
      rw [leadNL_cons_three]
      simp [hc]

theorem headBeforeTry_some_shape {s0 repl : List Char} {ws : List (List Char)}
    {cont : List Char} (h : headBeforeTry s0 = some (repl, ws, cont)) :
    ∃ c hs w, ¬c = '\n' ∧ (∀ x ∈ hs, (x == '#') = true) ∧ hs ≠ [] ∧ jsWs w = true ∧
      repl = c :: '\n' :: '\n' :: (hs ++ [w]) ∧ ws = [] ∧
      s0 = c :: '\n' :: (hs ++ w :: cont) := by
  unfold headBeforeTry at h
  split at h
  · rename_i c s2
    split at h
    · exact Option.noConfusion h
    · rename_i hc
      split at h
      · rename_i x w s3 hdw
        split at h
        · rename_i hw
          dsimp only at h
          split at h
          · rename_i hlen
            injection h with h'
            have hrepl : repl = c :: '\n' :: '\n' ::
                (s2.takeWhile (fun x => x == '#') ++ [w]) := by
              have := congrArg Prod.fst h'
              simpa using this.symm
            have hws : ws = [] := by
              have := congrArg (fun p => p.2.1) h'
              simpa using this.symm
            have hcont : cont = s3 := by
              have := congrArg (fun p => p.2.2) h'
              simpa using this.symm
            refine ⟨c, s2.takeWhile (fun x => x == '#'), w, hc,
              fun y hy => List.mem_takeWhile_imp (p := fun z => z == '#') hy, ?_, hw, hrepl, hws, ?_⟩
            · intro hnil
              rw [hnil] at hlen
              simp at hlen
            · have hsplit := List.takeWhile_append_dropWhile (fun x => x == '#') s2
              have hs2 : s2 = s2.takeWhile (fun x => x == '#') ++ w :: s3 := by
                conv_lhs => rw [← hsplit]
                rw [hdw]
              rw [hcont, ← hs2]
          · exact Option.noConfusion h
        · simp at h
      · simp at h
  · exact Option.noConfusion h

theorem headAfterTry_some_shape {s0 repl : List Char} {ws : List (List Char)}
    {cont : List Char} (h : headAfterTry s0 = some (repl, ws, cont)) :
    ∃ hs w r m, (∀ x ∈ hs, (x == '#') = true) ∧ hs ≠ [] ∧ jsWs w = true ∧
      (∀ x ∈ r, ¬x = '\n') ∧ r ≠ [] ∧ ¬m = '\n' ∧ ¬m = '#' ∧
      repl = hs ++ w :: r ++ '\n' :: '\n' :: [m] ∧ ws = [] ∧
      s0 = hs ++ w :: (r ++ '\n' :: m :: cont) := by
  unfold headAfterTry at h
  split at h
  · rename_i x
    split at h
    · rename_i y w s3 hdw
      split at h
      · rename_i hw
        split at h
        · rename_i z m s4 hdr
          split at h
          · simp at h
          · rename_i hm
            dsimp only at h
            split at h
            · rename_i h6
              split at h
              · rename_i hr
                injection h with h'
                have hrepl : repl = ('#' :: x).takeWhile (fun u => u == '#') ++
                    w :: s3.takeWhile (fun u => u != '\n') ++ '\n' :: '\n' :: [m] := by
                  have := congrArg Prod.fst h'
                  simpa using this.symm
                have hws : ws = [] := by
                  have := congrArg (fun p => p.2.1) h'
                  simpa using this.symm
                have hcont : cont = s4 := by
                  have := congrArg (fun p => p.2.2) h'
                  simpa using this.symm
                push_neg at hm
                refine ⟨('#' :: x).takeWhile (fun u => u == '#'), w,
                  s3.takeWhile (fun u => u != '\n'), m,
                  fun y hy => List.mem_takeWhile_imp (p := fun z => z == '#') hy,
                  by simp [List.takeWhile_cons], hw,
                  fun y hy => by
                    have := List.mem_takeWhile_imp (p := fun z => z != '\n') hy
                    simpa using this,
                  ?_, hm.1, hm.2, hrepl, hws, ?_⟩
                · intro hnil
                  rw [hnil] at hr
                  simp at hr
                · have hsp1 := List.takeWhile_append_dropWhile (fun u => u == '#') ('#' :: x)
                  have hsp2 := List.takeWhile_append_dropWhile (fun u => u != '\n') s3
                  have hs3 : s3 = s3.takeWhile (fun u => u != '\n') ++ '\n' :: m :: s4 := by
                    conv_lhs => rw [← hsp2]
                    rw [hdr]
                  have hs0 : ('#' :: x : List Char) =
                      ('#' :: x).takeWhile (fun u => u == '#') ++ w :: s3 := by
                    conv_lhs => rw [← hsp1]
                    rw [hdw]
                  rw [hcont]
                  conv_lhs => rw [hs0, hs3]
              · exact Option.noConfusion h
            · exact Option.noConfusion h
        · simp at h
      · simp at h
    · simp at h
  · exact Option.noConfusion h

theorem hash_not_nl {hs : List Char} (hhash : ∀ x ∈ hs, (x == '#') = true) :
    ∀ x ∈ hs, ¬x = '\n' := fun x hx hxe => by
  have hh := hhash x hx
  rw [hxe] at hh
  exact absurd hh (by decide)

theorem leadNL_hash_append {hs : List Char} (hne : hs ≠ [])
    (hhash : ∀ x ∈ hs, (x == '#') = true) (b : List Char) : leadNL (hs ++ b) = 0 := by
  cases hs with
  | nil => exact absurd rfl hne
  | cons hh hs' =>
    have hnl : ¬hh = '\n' := hash_not_nl hhash hh (by simp)
    rw [List.cons_append]
    exact leadNL_cons_other hnl _

theorem noT3_nl_cons {t : List Char} (hn : noT3 ('\n' :: t)) : ¬2 ≤ leadNL t :=
  fun h2 => (noT3_cons.mp hn).2 (leadNL_cons_three.mpr ⟨rfl, h2⟩)

theorem leadNL_scanP4 : ∀ (fuel : Nat) (s : List Char), s.length ≤ fuel →
    leadNL ((scanA headBeforeTry fuel s).1) = leadNL s
  | fuel, [], _ => by simp [scanA_nil, leadNL]
  | 0, c :: s, h => by simp at h
  | fuel + 1, c :: s, h => by
    have hfs : s.length ≤ fuel := by simpa using Nat.le_of_succ_le_succ h
    cases ht : headBeforeTry (c :: s) with
    | none =>
      rw [scanA_cons_none ht]
      by_cases hc : c = '\n'
      · subst hc
        rw [leadNL_cons_nl, leadNL_cons_nl, leadNL_scanP4 fuel s hfs]
      · rw [leadNL_cons_other hc, leadNL_cons_other hc]
    | some r =>
      obtain ⟨repl, ws, cont⟩ := r
      rw [scanA_cons_some ht]
      obtain ⟨c', hs, w, hc', hhash, hne, hw, hrepl, hws, hs0⟩ := headBeforeTry_some_shape ht
      have hcc : c = c' := (List.cons_eq_cons.mp hs0).1
      rw [hrepl]
      rw [show (c' :: '\n' :: '\n' :: (hs ++ [w])) ++ (scanA headBeforeTry fuel cont).1
          = c' :: ('\n' :: '\n' :: (hs ++ [w]) ++ (scanA headBeforeTry fuel cont).1) from rfl]
      rw [leadNL_cons_other hc', hcc, leadNL_cons_other hc']

theorem noT3_scanP4 : ∀ (fuel : Nat) (s : List Char), s.length ≤ fuel → noT3 s →
    noT3 ((scanA headBeforeTry fuel s).1)
  | fuel, [], _, _ => by
    rw [scanA_nil]
    exact noT3_nil
  | 0, c :: s, h, _ => by simp at h
  | fuel + 1, c :: s, h, hno => by
    have hfs : s.length ≤ fuel := by simpa using Nat.le_of_succ_le_succ h
    cases ht : headBeforeTry (c :: s) with
    | none =>
      rw [scanA_cons_none ht]
      rw [noT3_cons]
      refine ⟨noT3_scanP4 fuel s hfs (noT3_tail hno), ?_⟩
      rw [leadNL_cons_three]
      rintro ⟨rfl, h2⟩
      rw [leadNL_scanP4 fuel s hfs] at h2
      exact (noT3_cons.mp hno).2 (leadNL_cons_three.mpr ⟨rfl, h2⟩)
    | some r =>
      obtain ⟨repl, ws, cont⟩ := r
      rw [scanA_cons_some ht]
      obtain ⟨c', hs, w, hc', hhash, hne, hw, hrepl, hws, hs0⟩ := headBeforeTry_some_shape ht
      have hclen : cont.length ≤ fuel := by
        have hlen := congrArg List.length hs0
        simp only [List.length_cons, List.length_append] at hlen
        omega
      have hcsuf : cont <:+ c :: s := by
        rw [hs0]
        exact ⟨c' :: '\n' :: (hs ++ [w]), by simp⟩
      have hcontno : noT3 cont := noT3_mono hcsuf.isInfix hno
      have hX := noT3_scanP4 fuel cont hclen hcontno
      have hXlen : leadNL ((scanA headBeforeTry fuel cont).1) = leadNL cont :=
        leadNL_scanP4 fuel cont hclen
      rw [hrepl]
      rw [show (c' :: '\n' :: '\n' :: (hs ++ [w])) ++ (scanA headBeforeTry fuel cont).1
          = c' :: '\n' :: '\n' :: (hs ++ (w :: (scanA headBeforeTry fuel cont).1)) by simp]
      have hhs0 : leadNL (hs ++ (w :: (scanA headBeforeTry fuel cont).1)) = 0 :=
        leadNL_hash_append hne hhash _
      rw [noT3_cons]
      refine ⟨?_, ?_⟩
      · rw [noT3_cons]
        refine ⟨?_, ?_⟩
        · rw [noT3_cons]
          refine ⟨?_, ?_⟩
          · rw [noT3_append_left (hash_not_nl hhash)]
            rw [noT3_cons]
            refine ⟨hX, ?_⟩
            rw [leadNL_cons_three]
            rintro ⟨rfl, h2⟩
            rw [hXlen] at h2
            have hsuf2 : ('\n' :: cont) <:+ c :: s := by
              rw [hs0]
              exact ⟨c' :: '\n' :: hs, by simp⟩
            exact noT3_nl_cons (noT3_mono hsuf2.isInfix hno) h2
          · rw [leadNL_cons_three]
            rintro ⟨-, h2⟩
            rw [hhs0] at h2
            omega
        · rw [leadNL_cons_nl, leadNL_cons_nl, hhs0]
          omega
      · rw [leadNL_cons_three]
        rintro ⟨hcn, -⟩
        exact hc' hcn

theorem leadNL_append_zero {a : List Char} (hne : a ≠ [])
    (hnl : ∀ x ∈ a, ¬x = '\n') (b : List Char) : leadNL (a ++ b) = 0 := by
  cases a with
  | nil => exact absurd rfl hne
  | cons hh a' =>
    rw [List.cons_append]
    exact leadNL_cons_other (hnl hh (by simp)) _

theorem leadNL_scanP5 : ∀ (fuel : Nat) (s : List Char), s.length ≤ fuel →
    leadNL ((scanA headAfterTry fuel s).1) = leadNL s
  | fuel, [], _ => by simp [scanA_nil, leadNL]
  | 0, c :: s, h => by simp at h
  | fuel + 1, c :: s, h => by
    have hfs : s.length ≤ fuel := by simpa using Nat.le_of_succ_le_succ h
    cases ht : headAfterTry (c :: s) with
    | none =>
      rw [scanA_cons_none ht]
      by_cases hc : c = '\n'
      · subst hc
        rw [leadNL_cons_nl, leadNL_cons_nl, leadNL_scanP5 fuel s hfs]
      · rw [leadNL_cons_other hc, leadNL_cons_other hc]
    | some rr =>
      obtain ⟨repl, ws, cont⟩ := rr
      rw [scanA_cons_some ht]
      obtain ⟨hs, w, r, m, hhash, hne, hw, hrnl, hrne, hm1, hm2, hrepl, hws, hs0⟩ :=
        headAfterTry_some_shape ht
      rw [hrepl, hs0]
      rw [show (hs ++ w :: r ++ '\n' :: '\n' :: [m]) ++ (scanA headAfterTry fuel cont).1
          = hs ++ ((w :: r ++ '\n' :: '\n' :: [m]) ++ (scanA headAfterTry fuel cont).1)
          by simp]
      rw [leadNL_hash_append hne hhash, leadNL_hash_append hne hhash]

theorem noT3_scanP5 : ∀ (fuel : Nat) (s : List Char), s.length ≤ fuel → noT3 s →
    noT3 ((scanA headAfterTry fuel s).1)
  | fuel, [], _, _ => by
    rw [scanA_nil]
    exact noT3_nil
  | 0, c :: s, h, _ => by simp at h
  | fuel + 1, c :: s, h, hno => by
    have hfs : s.length ≤ fuel := by simpa using Nat.le_of_succ_le_succ h
    cases ht : headAfterTry (c :: s) with
    | none =>
      rw [scanA_cons_none ht]
      rw [noT3_cons]
      refine ⟨noT3_scanP5 fuel s hfs (noT3_tail hno), ?_⟩
      rw [leadNL_cons_three]
      rintro ⟨rfl, h2⟩
      rw [leadNL_scanP5 fuel s hfs] at h2
      exact (noT3_cons.mp hno).2 (leadNL_cons_three.mpr ⟨rfl, h2⟩)
    | some rr =>
      obtain ⟨repl, ws, cont⟩ := rr
      rw [scanA_cons_some ht]
      obtain ⟨hs, w, r, m, hhash, hne, hw, hrnl, hrne, hm1, hm2, hrepl, hws, hs0⟩ :=
        headAfterTry_some_shape ht
      have hclen : cont.length ≤ fuel := by
        have hlen := congrArg List.length hs0
        simp only [List.length_cons, List.length_append] at hlen
        omega
      have hcsuf : cont <:+ c :: s := by
        rw [hs0]
        exact ⟨hs ++ w :: r ++ ['\n', m], by simp⟩
      have hcontno : noT3 cont := noT3_mono hcsuf.isInfix hno
      have hX := noT3_scanP5 fuel cont hclen hcontno
      rw [hrepl]
      rw [show (hs ++ w :: r ++ '\n' :: '\n' :: [m]) ++ (scanA headAfterTry fuel cont).1
          = hs ++ (w :: (r ++ '\n' :: '\n' :: m :: (scanA headAfterTry fuel cont).1))
          by simp]
      rw [noT3_append_left (hash_not_nl hhash), noT3_cons]
      have hr0 : leadNL (r ++ '\n' :: '\n' :: m :: (scanA headAfterTry fuel cont).1) = 0 :=
        leadNL_append_zero hrne hrnl _
      refine ⟨?_, ?_⟩
      · rw [noT3_append_left hrnl, noT3_cons]
        refine ⟨?_, ?_⟩
        · rw [noT3_cons]
          refine ⟨?_, ?_⟩
          · rw [noT3_cons]
            refine ⟨hX, ?_⟩
            rw [leadNL_cons_three]
            rintro ⟨hmc, -⟩
            exact hm1 hmc
          · rw [leadNL_cons_nl, leadNL_cons_other hm1]
            omega
        · rw [leadNL_cons_nl, leadNL_cons_nl, leadNL_cons_other hm1]
          omega
      · rw [leadNL_cons_three]
        rintro ⟨rfl, h2⟩
        rw [hr0] at h2
        omega

/-- Blank-line bound of `postProcess`: its output never contains three
consecutive newlines (the collapse pass establishes it, the two heading
passes preserve it). -/
theorem noT3_postProcess (md : List Char) : noT3 (postProcess md) := by
  unfold postProcess runPass
  exact noT3_scanP5 _ _ (Nat.le_refl _)
    (noT3_scanP4 _ _ (Nat.le_refl _) (noT3_scanP3 _ _ (Nat.le_refl _)))

/-!  Document assembly: front matter and children section. -/

theorem joinSep_cons {sep l : List Char} {rest : List (List Char)} (h : rest ≠ []) :
    joinSep sep (l :: rest) = l ++ sep ++ joinSep sep rest := by
  cases rest with
  | nil => exact absurd rfl h
  | cons a as => rfl

theorem joinSep_append_one {sep x : List Char} :
    ∀ {ls : List (List Char)}, ls ≠ [] →
      joinSep sep (ls ++ [x]) = joinSep sep ls ++ sep ++ x
  | [], h => absurd rfl h
  | [l], _ => by simp [joinSep]
  | l :: l2 :: ls, _ => by
    rw [show (l :: l2 :: ls) ++ [x] = l :: ((l2 :: ls) ++ [x]) from rfl]
    rw [joinSep_cons (by simp), joinSep_cons (by simp),
      joinSep_append_one (by simp)]
    simp [List.append_assoc]

/-- The front-matter block up to and including the closing delimiter:
ordered fields `title` (quoted, inner quotes escaped), `page_id`,
`space`, the optional `labels` array, and `source`. -/
def frontMatterCore (page : ConfluencePage) : List Char :=
  joinSep (str "\n")
    ([str "---",
      str "title: \"" ++ escQuote page.title.data ++ str "\"",
      str "page_id: \"" ++ page.id.data ++ str "\"",
      str "space: \"" ++ page.spaceKey.data ++ str "\""] ++
     (if page.labels ≠ [] then
        [str "labels: [" ++
           joinSep (str ", ") (page.labels.map (fun l => str "\"" ++ l.data ++ str "\"")) ++
           str "]"]
      else []) ++
     [str "source: \"" ++ page.url.data ++ str "\"", str "---"])

theorem addFrontMatter_eq_core (page : ConfluencePage) :
    addFrontMatter page = frontMatterCore page ++ str "\n\n" := by
  unfold addFrontMatter frontMatterCore frontMatterLines
  rw [show ∀ (a b c d e f : List Char) (mid : List (List Char)),
      ([a, b, c, d] ++ mid ++ [e, f, [], []] : List (List Char)) =
        (([a, b, c, d] ++ mid ++ [e, f]) ++ [[]]) ++ [[]] by intros; simp]
  rw [joinSep_append_one (by simp), joinSep_append_one (by simp)]
  simp only [List.append_nil, List.append_assoc]
  rfl

theorem frontMatterCore_head (page : ConfluencePage) :
    ∃ t, frontMatterCore page = '-' :: t := by
  unfold frontMatterCore
  rw [show ∀ (a b c d e f : List Char) (mid : List (List Char)),
      ([a, b, c, d] ++ mid ++ [e, f] : List (List Char)) = a :: ([b, c, d] ++ mid ++ [e, f])
      by intros; simp]
  rw [joinSep_cons (by simp)]
  exact ⟨_, rfl⟩

theorem exists_snoc_dash (X : List Char) : ∃ t, X ++ str "---" = t ++ ['-'] := by
  refine ⟨X ++ ['-', '-'], ?_⟩
  rw [show (str "---" : List Char) = ['-', '-'] ++ ['-'] from rfl, ← List.append_assoc]

theorem frontMatterCore_last (page : ConfluencePage) :
    ∃ t, frontMatterCore page = t ++ ['-'] := by
  unfold frontMatterCore
  rw [show ∀ (a b c d e f : List Char) (mid : List (List Char)),
      ([a, b, c, d] ++ mid ++ [e, f] : List (List Char)) =
        ([a, b, c, d] ++ mid ++ [e]) ++ [f] by intros; simp]
  rw [joinSep_append_one (by simp)]
  exact exists_snoc_dash _

/-- The children section as the specification (§4.2 step 6) words it: a
horizontal rule, the heading, and one `- <title> (ID: <id>)` line per
child in input order. -/
def childrenSectionSpec (children : List PageRef) : List Char :=
  str "\n\n---\n\n## Child Pages\n\n" ++
    (children.map (fun c =>
      str "- " ++ c.title.data ++ str " (ID: " ++ c.id.data ++ str ")" ++ str "\n")).flatten

theorem joinSep_nl_items : ∀ (items : List (List Char)),
    joinSep (str "\n") (items ++ [[]]) = (items.map (fun it => it ++ str "\n")).flatten
  | [] => by simp [joinSep]
  | it :: its => by
    rw [show (it :: its) ++ [[]] = it :: (its ++ [[]]) from rfl]
    rw [joinSep_cons (by simp), joinSep_nl_items its]
    simp [List.append_assoc]

theorem buildChildrenSection_eq (children : List PageRef) :
    buildChildrenSection children = childrenSectionSpec children := by
  unfold buildChildrenSection childrenSectionSpec
  rw [show ([str "\n\n---\n\n## Child Pages\n"] ++
      children.map (fun c => str "- " ++ c.title.data ++ str " (ID: " ++ c.id.data ++ str ")") ++
      [[]] : List (List Char)) =
      str "\n\n---\n\n## Child Pages\n" ::
        (children.map (fun c => str "- " ++ c.title.data ++ str " (ID: " ++ c.id.data ++ str ")") ++
          [[]]) by simp]
  rw [joinSep_cons (by simp), joinSep_nl_items]
  rw [List.map_map]
  have hlit : str "\n\n---\n\n## Child Pages\n" ++ str "\n" =
      str "\n\n---\n\n## Child Pages\n\n" := by decide
  rw [hlit]
  rfl

/-!  Remaining support lemmas for the claims about `convert`. -/

theorem endsOneNLb_append {t : List Char} {c : Char} (h : ¬c = '\n') :
    endsOneNLb ((t ++ [c]) ++ ['\n']) = true := by
  unfold endsOneNLb
  rw [List.reverse_append, List.reverse_append]
  simp only [List.reverse_singleton, List.singleton_append, List.cons_append]
  simpa using h

theorem mem_dropWhile_of_not {P : Char → Bool} {c : Char} (hc : P c = false) :
    ∀ {l : List Char}, c ∈ l → c ∈ l.dropWhile P
  | [], hmem => by simp at hmem
  | x :: l', hmem => by
    rw [List.dropWhile_cons]
    split
    · rename_i hPx
      rcases List.mem_cons.mp hmem with rfl | hmem'
      · rw [hPx] at hc
        exact Bool.noConfusion hc
      · exact mem_dropWhile_of_not hc hmem'
    · exact hmem

theorem jsTrim_ne_nil {A : List Char} {c : Char} (hmem : c ∈ A) (hc : jsWs c = false) :
    jsTrim A ≠ [] := by
  unfold jsTrim
  intro h0
  rw [List.reverse_eq_nil_iff] at h0
  have m1 := mem_dropWhile_of_not hc hmem
  have m2 : c ∈ (A.dropWhile jsWs).reverse := List.mem_reverse.mpr m1
  have m3 := mem_dropWhile_of_not hc m2
  rw [h0] at m3
  simp at m3

theorem prefix_dashes_nl_iff {t : List Char} :
    (str "---\n" <+: t ++ ['\n']) ↔ t = str "---" ∨ str "---\n" <+: t := by
  constructor
  · rintro ⟨u, hu⟩
    rcases List.eq_nil_or_concat u with rfl | ⟨u', a, rfl⟩
    · left
      rw [List.append_nil] at hu
      have h2 : (str "---" ++ ['\n'] : List Char) = t ++ ['\n'] := by
        rw [← hu]
        rfl
      exact ((List.append_inj' h2 rfl).1).symm
    · right
      rw [List.concat_eq_append, ← List.append_assoc] at hu
      have h2 := List.append_inj' hu (by rfl)
      exact ⟨u', h2.1⟩
  · rintro (rfl | ⟨u, hu⟩)
    · exact ⟨[], by rfl⟩
    · exact ⟨u ++ ['\n'], by rw [← List.append_assoc, hu]⟩

/-!  Concrete fixtures used by counterexamples and witnesses. -/

/-- A page with empty body and no children. -/
def emptyPage : ConfluencePage :=
  { id := "1", title := "T", body := "", spaceKey := "S", version := 1,
    ancestors := [], children := [], labels := [], url := "u" }

/-- A page with empty body and one child. -/
def childPage : ConfluencePage :=
  { emptyPage with children := [{ id := "2", title := "Child" }] }

/-- An HTML→Markdown engine returning the empty document (the behavior of
the real engine on an empty or whitespace-only input). -/
def tdEmpty : String → String := fun _ => ""

/-- A page with no children whose title already contains the children
heading text. -/
def headingPage : ConfluencePage :=
  { emptyPage with title := "## Child Pages" }

/-- The marker-glyph table exactly as the specification words it
(`info="i"`, `note="!"`, `warning="!!"`, `tip="*"`). -/
def panelGlyphSpec (panelType : String) : List Char :=
  if panelType = "info" then str "i"
  else if panelType = "note" then str "!"
  else if panelType = "warning" then str "!!"
  else if panelType = "tip" then str "*"
  else []

/-- A body with one unknown macro nested inside another unknown macro. -/
def bodyC1 : List Char :=
  str "<ac:structured-macro ac:name=\"a\"><ac:structured-macro ac:name=\"b\">x</ac:structured-macro></ac:structured-macro>"

/-- A body with a note panel nested inside another note panel. -/
def bodyC6 : List Char :=
  str "<ac:structured-macro ac:name=\"note\"><ac:rich-text-body>A<ac:structured-macro ac:name=\"note\"><ac:rich-text-body>B</ac:rich-text-body></ac:structured-macro>C</ac:rich-text-body></ac:structured-macro>"

/-!  A decomposition of the assembled document, and the preservation of
the blank-line bound through the final trim. -/

theorem assembled_decomp (td : String → String) (opts : ResolvedOptions)
    (page : ConfluencePage) :
    assembledMarkdown td opts page =
      (if opts.frontMatter then addFrontMatter page else []) ++
        bodyMarkdown td opts page ++
        (if opts.includeChildren ∧ page.children ≠ [] then
          buildChildrenSection page.children else []) := by
  unfold assembledMarkdown
  by_cases hfm : opts.frontMatter = true <;>
    by_cases hic : opts.includeChildren ∧ page.children ≠ [] <;>
      simp [hfm, hic]

theorem containsSeq_false_mono {n s t : List Char}
    (h : containsSeq n s = false) (hi : t <:+: s) : containsSeq n t = false := by
  by_contra hc
  rw [Bool.not_eq_false] at hc
  have h2 : containsSeq n s = true := containsSeq_iff.mpr ((containsSeq_iff.mp hc).trans hi)
  rw [h] at h2
  exact Bool.noConfusion h2

theorem triple_nl_append_nl {t : List Char}
    (ht : containsSeq (str "\n\n\n") t = false)
    (hlast : t = [] ∨ ∃ u c, t = u ++ [c] ∧ c ≠ '\n') :
    containsSeq (str "\n\n\n") (t ++ ['\n']) = false := by
  have hstr : (str "\n\n\n" : List Char) = ['\n', '\n', '\n'] := rfl
  by_contra hc
  rw [Bool.not_eq_false] at hc
  have hi : str "\n\n\n" <:+: t ++ ['\n'] := containsSeq_iff.mp hc
  have hrev : (['\n', '\n', '\n'] : List Char) <:+: '\n' :: t.reverse := by
    have h2 := List.reverse_infix.mpr hi
    rw [hstr] at h2
    simpa using h2
  rcases List.infix_cons_iff.mp hrev with hp | hi2
  · have h2 : (['\n', '\n'] : List Char) <+: t.reverse := (List.cons_prefix_cons.mp hp).2
    rcases hlast with rfl | ⟨u, c, rfl, hcne⟩
    · simp at h2
    · rw [List.reverse_append] at h2
      simp only [List.reverse_singleton, List.singleton_append] at h2
      exact hcne ((List.cons_prefix_cons.mp h2).1).symm
  · have h3 : str "\n\n\n" <:+: t := by
      have h4 := List.reverse_infix.mpr hi2
      rw [List.reverse_reverse] at h4
      rw [hstr]
      simpa using h4
    rw [containsSeq_iff.mpr h3] at ht
    exact Bool.noConfusion ht

/-!  Claim theorems. -/

/-- C10: for every HTML string containing no occurrence, in any letter
case, of `<ac:`, `</ac:`, `<ri:` or `</ri:`, `preprocessMacros` is the
identity and returns an empty warnings list: every pass's regex requires
one of those vendor triggers at its match position. -/
theorem C10_preprocess_identity (html : List Char)
    (h1 : containsSeq (str "<ac:") (lowerL html) = false)
    (h2 : containsSeq (str "</ac:") (lowerL html) = false)
    (h3 : containsSeq (str "<ri:") (lowerL html) = false)
    (h4 : containsSeq (str "</ri:") (lowerL html) = false) :
    preprocessMacros html = (html, []) :=
  preprocessMacros_id h1 h2 h3 h4

/-- Witness for C10 at the concrete body `<p>hello</p>`. -/
theorem C10_witness :
    containsSeq (str "<ac:") (lowerL (str "<p>hello</p>")) = false ∧
    containsSeq (str "</ac:") (lowerL (str "<p>hello</p>")) = false ∧
    containsSeq (str "<ri:") (lowerL (str "<p>hello</p>")) = false ∧
    containsSeq (str "</ri:") (lowerL (str "<p>hello</p>")) = false ∧
    preprocessMacros (str "<p>hello</p>") = (str "<p>hello</p>", []) :=
  ⟨by decide, by decide, by decide, by decide,
    C10_preprocess_identity (str "<p>hello</p>")
      (by decide) (by decide) (by decide) (by decide)⟩

/-- C9: when `convertMacros` is false, `convert` returns an empty
warnings list regardless of the page body: warnings are only produced by
the macro preprocessing stage, which is skipped. -/
theorem C9_no_warnings_without_macros (td : String → String) (opts : ResolvedOptions)
    (page : ConfluencePage) (h : opts.convertMacros = false) :
    (convert td opts page).warnings = [] := by
  unfold convert preStage
  rw [h]
  rfl

/-- Witness for C9 at a concrete page whose body holds an unknown macro. -/
theorem C9_witness :
    (convert tdEmpty ⟨true, true, false⟩
      { emptyPage with body := "<ac:structured-macro ac:name=\"zz\">x</ac:structured-macro>" }).warnings = [] :=
  C9_no_warnings_without_macros tdEmpty ⟨true, true, false⟩
    { emptyPage with body := "<ac:structured-macro ac:name=\"zz\">x</ac:structured-macro>" } rfl

/-- C8 counterexample: stripping the vendor tags is a single left-to-right
pass, and deleting `<ac:x>` from `<a<ac:x>c:y>` splices the surrounding
characters into the brand-new vendor tag `<ac:y>`, which remains in the
returned HTML — so the output is not free of residual `ac:` markup as the
claim asserts. -/
theorem C8_counterexample :
    preprocessMacros (str "<a<ac:x>c:y>") = (str "<ac:y>", []) ∧
    containsSeq (str "<ac:") (lowerL (preprocessMacros (str "<a<ac:x>c:y>")).1) = true := by
  constructor <;> decide

/-- C8 (amended): the tag-stripping passes remove every vendor tag they
match, but a removal can splice surrounding text into a new vendor tag
that survives (see the counterexample); on a body with no
vendor-namespace markup at all, the output is equally free of it. -/
theorem C8_vendor_free_output (html : List Char)
    (h1 : containsSeq (str "<ac:") (lowerL html) = false)
    (h2 : containsSeq (str "</ac:") (lowerL html) = false)
    (h3 : containsSeq (str "<ri:") (lowerL html) = false)
    (h4 : containsSeq (str "</ri:") (lowerL html) = false) :
    containsSeq (str "<ac:") (lowerL (preprocessMacros html).1) = false ∧
    containsSeq (str "</ac:") (lowerL (preprocessMacros html).1) = false ∧
    containsSeq (str "<ri:") (lowerL (preprocessMacros html).1) = false ∧
    containsSeq (str "</ri:") (lowerL (preprocessMacros html).1) = false := by
  rw [preprocessMacros_id h1 h2 h3 h4]
  exact ⟨h1, h2, h3, h4⟩

/-- Witness for C8 at the concrete body `<p>hello</p>`. -/
theorem C8_witness :
    containsSeq (str "<ac:") (lowerL (str "<p>hello</p>")) = false ∧
    containsSeq (str "<ac:") (lowerL (preprocessMacros (str "<p>hello</p>")).1) = false :=
  ⟨by decide,
    (C8_vendor_free_output (str "<p>hello</p>")
      (by decide) (by decide) (by decide) (by decide)).1⟩

set_option maxRecDepth 100000 in
/-- C7 counterexample: a `code` macro with no CDATA plain-text body does
not emit an empty code block — its regex requires the
`<ac:plain-text-body><![CDATA[` section, so the instance falls through to
the unsupported-macro fallback, producing a comment and a warning. -/
theorem C7_counterexample :
    preprocessMacros (str "<ac:structured-macro ac:name=\"code\"></ac:structured-macro>") =
      (str "<!-- Unsupported Confluence macro: code -->",
       [str "Unsupported macro removed: code"]) := by
  decide

set_option maxRecDepth 100000 in
/-- C7 (amended): panels and `expand` with an absent body section still
emit their wrapper with empty content, and a `code` macro with an empty
(but present) CDATA body emits an empty code block; but `code` and
`noformat` without their CDATA section, and `jira`/`anchor` without their
required parameter, fall through to the unsupported-macro fallback. -/
theorem C7_missing_bodies :
    preprocessMacros (str "<ac:structured-macro ac:name=\"info\"></ac:structured-macro>") =
      (str "<blockquote><p><strong>[i] INFO:</strong></p></blockquote>", []) ∧
    preprocessMacros (str "<ac:structured-macro ac:name=\"expand\"></ac:structured-macro>") =
      (str "<details><summary>Details</summary></details>", []) ∧
    preprocessMacros
        (str "<ac:structured-macro ac:name=\"code\"><ac:plain-text-body><![CDATA[]]></ac:plain-text-body></ac:structured-macro>") =
      (str "<pre><code class=\"language-\"></code></pre>", []) ∧
    (preprocessMacros (str "<ac:structured-macro ac:name=\"noformat\">x</ac:structured-macro>")).2 =
      [str "Unsupported macro removed: noformat"] ∧
    (preprocessMacros (str "<ac:structured-macro ac:name=\"jira\">nokey</ac:structured-macro>")).2 =
      [str "Unsupported macro removed: jira"] ∧
    (preprocessMacros (str "<ac:structured-macro ac:name=\"anchor\">noname</ac:structured-macro>")).2 =
      [str "Unsupported macro removed: anchor"] := by
  refine ⟨?_, ?_, ?_, ?_, ?_, ?_⟩ <;> decide

/-- C2 counterexample: on a page whose assembled document trims to the
empty string, `convert` returns the bare string `"\n"`, which does not
match `/[^\n]\n$/` — no non-newline character precedes the newline. -/
theorem C2_counterexample :
    (convert tdEmpty ⟨false, false, false⟩ emptyPage).markdown = "\n" ∧
    endsOneNLb (convert tdEmpty ⟨false, false, false⟩ emptyPage).markdown.data = false := by
  constructor <;> decide

/-- C2 (amended): the markdown returned by `convert` either is the bare
string `"\n"` (when the assembled document trims to nothing) or matches
`/[^\n]\n$/`; with front matter enabled the trimmed document is never
empty, so the output then always matches `/[^\n]\n$/`. -/
theorem C2_trailing_newline (td : String → String) (opts : ResolvedOptions)
    (page : ConfluencePage) :
    ((convert td opts page).markdown.data = ['\n'] ∨
      endsOneNLb (convert td opts page).markdown.data = true) ∧
    (opts.frontMatter = true →
      endsOneNLb (convert td opts page).markdown.data = true) := by
  have hdata : (convert td opts page).markdown.data =
      jsTrim (assembledMarkdown td opts page) ++ ['\n'] := rfl
  constructor
  · rcases jsTrim_last (assembledMarkdown td opts page) with hnil | ⟨t, c, heq, hc⟩
    · left
      rw [hdata, hnil]
      rfl
    · right
      rw [hdata, heq]
      apply endsOneNLb_append
      intro hceq
      rw [hceq] at hc
      exact absurd hc (by decide)
  · intro hfm
    have hpre : addFrontMatter page <+: assembledMarkdown td opts page := by
      rw [assembled_decomp, if_pos hfm, List.append_assoc]
      exact List.prefix_append _ _
    have hmem : ('-' : Char) ∈ assembledMarkdown td opts page := by
      apply hpre.subset
      obtain ⟨t0, ht0⟩ := frontMatterCore_head page
      rw [addFrontMatter_eq_core, ht0]
      exact List.mem_append_left _ (List.mem_cons_self _ _)
    have hne := jsTrim_ne_nil hmem (by decide)
    rcases jsTrim_last (assembledMarkdown td opts page) with hnil | ⟨t, c, heq, hc⟩
    · exact absurd hnil hne
    · rw [hdata, heq]
      apply endsOneNLb_append
      intro hceq
      rw [hceq] at hc
      exact absurd hc (by decide)

/-- Witness for C2 at a concrete front-matter conversion. -/
theorem C2_witness :
    endsOneNLb (convert tdEmpty ⟨true, true, true⟩ emptyPage).markdown.data = true :=
  (C2_trailing_newline tdEmpty ⟨true, true, true⟩ emptyPage).2 rfl

set_option maxRecDepth 100000 in
/-- C3 counterexample: with front matter and a children section both
enabled on a child-bearing page with empty body, the front matter's two
trailing newlines abut the children section's two leading newlines, and
`convert` returns markdown containing four consecutive newlines. -/
theorem C3_counterexample :
    containsSeq (str "\n\n\n")
      (convert tdEmpty ⟨true, true, true⟩ childPage).markdown.data = true := by
  decide

/-- C3 (amended): `postProcess` output never holds three consecutive
newlines, and `convert` preserves that bound whenever neither front
matter nor a children section is added; the seams introduced by those two
additions happen after post-processing and escape the bound. -/
theorem C3_blank_line_bound (td : String → String) (opts : ResolvedOptions)
    (page : ConfluencePage) (md : List Char)
    (hfm : opts.frontMatter = false) (hic : opts.includeChildren = false) :
    containsSeq (str "\n\n\n") (postProcess md) = false ∧
    containsSeq (str "\n\n\n") (convert td opts page).markdown.data = false := by
  refine ⟨noT3_postProcess md, ?_⟩
  have hasm : assembledMarkdown td opts page = bodyMarkdown td opts page := by
    rw [assembled_decomp]
    simp [hfm, hic]
  have hdata : (convert td opts page).markdown.data =
      jsTrim (assembledMarkdown td opts page) ++ ['\n'] := rfl
  rw [hdata, hasm]
  have hbody : containsSeq (str "\n\n\n") (bodyMarkdown td opts page) = false :=
    noT3_postProcess _
  have htrim : containsSeq (str "\n\n\n") (jsTrim (bodyMarkdown td opts page)) = false :=
    containsSeq_false_mono hbody (jsTrim_isInfix _)
  apply triple_nl_append_nl htrim
  rcases jsTrim_last (bodyMarkdown td opts page) with hnil | ⟨u, c, heq, hc⟩
  · exact Or.inl hnil
  · refine Or.inr ⟨u, c, heq, ?_⟩
    intro hceq
    rw [hceq] at hc
    exact absurd hc (by decide)

/-- Witness for C3 at a concrete body-only conversion. -/
theorem C3_witness :
    containsSeq (str "\n\n\n")
      (convert tdEmpty ⟨false, false, true⟩ emptyPage).markdown.data = false :=
  (C3_blank_line_bound tdEmpty ⟨false, false, true⟩ emptyPage (str "x") rfl rfl).2

set_option maxRecDepth 100000 in
/-- C5 counterexample: with `frontMatter` disabled but a children section
emitted after an empty body, trimming removes the section's leading blank
lines and the returned markdown begins with `---` followed by a newline —
`frontMatter:false` does not prevent the output from matching
`/^---\n/`. -/
theorem C5_counterexample :
    (str "---\n").isPrefixOf
      (convert tdEmpty ⟨false, true, true⟩ childPage).markdown.data = true := by
  decide

/-- C5 (amended): with `frontMatter` enabled the returned markdown begins
with the YAML block `frontMatterCore` (the opening `---`, the ordered
`title`/`page_id`/`space`/optional `labels`/`source` fields with the
stated quoting, and the closing `---`), and `addFrontMatter` prepends
exactly that block plus two newlines; with `frontMatter` disabled the
output matches `/^---\n/` exactly when the trimmed assembled document is
`---` or itself starts with `---` and a newline, so the absence of front
matter does not forbid the prefix. -/
theorem C5_front_matter (td : String → String) (opts : ResolvedOptions)
    (page : ConfluencePage) :
    (opts.frontMatter = true →
      frontMatterCore page <+: (convert td opts page).markdown.data) ∧
    (opts.frontMatter = false →
      ((str "---\n" <+: (convert td opts page).markdown.data) ↔
        (jsTrim (assembledMarkdown td opts page) = str "---" ∨
          str "---\n" <+: jsTrim (assembledMarkdown td opts page)))) ∧
    addFrontMatter page = frontMatterCore page ++ str "\n\n" := by
  have hdata : (convert td opts page).markdown.data =
      jsTrim (assembledMarkdown td opts page) ++ ['\n'] := rfl
  refine ⟨?_, ?_, addFrontMatter_eq_core page⟩
  · intro hfm
    obtain ⟨t0, ht0⟩ := frontMatterCore_head page
    obtain ⟨t1, ht1⟩ := frontMatterCore_last page
    have hassm : assembledMarkdown td opts page =
        frontMatterCore page ++
          (str "\n\n" ++ (bodyMarkdown td opts page ++
            (if opts.includeChildren ∧ page.children ≠ [] then
              buildChildrenSection page.children else []))) := by
      rw [assembled_decomp, if_pos hfm, addFrontMatter_eq_core]
      simp [List.append_assoc]
    have h1 : frontMatterCore page <+: jsTrim (assembledMarkdown td opts page) := by
      rw [hassm]
      exact prefix_jsTrim_append ht0 ht1 (by decide) (by decide) _
    rw [hdata]
    exact h1.trans (List.prefix_append _ _)
  · intro _
    rw [hdata]
    exact prefix_dashes_nl_iff

/-- Witness for C5 at a concrete front-matter conversion. -/
theorem C5_witness :
    frontMatterCore emptyPage <+:
      (convert tdEmpty ⟨true, false, true⟩ emptyPage).markdown.data :=
  (C5_front_matter tdEmpty ⟨true, false, true⟩ emptyPage).1 rfl

set_option maxRecDepth 100000 in
/-- C4 counterexample: the "only if" direction fails — a page titled
`## Child Pages`, with no children and `includeChildren` false, yields
markdown containing `## Child Pages` (via the front matter's title
field). -/
theorem C4_counterexample :
    headingPage.children = [] ∧
    containsSeq (str "## Child Pages")
      (convert tdEmpty ⟨true, false, true⟩ headingPage).markdown.data = true := by
  constructor <;> decide

/-- C4 (amended): when `includeChildren` is set and the child list is
nonempty, the children section is appended and `## Child Pages` appears
in the output; the converse holds only when the heading does not already
occur in the assembled document (it can arrive through the title or the
body, see the counterexample); and the section's text is exactly a
horizontal rule, the `## Child Pages` heading, and one
`- <title> (ID: <id>)` item per child in input order
(`childrenSectionSpec`). -/
theorem C4_children_section (td : String → String) (opts : ResolvedOptions)
    (page : ConfluencePage) :
    (opts.includeChildren = true → page.children ≠ [] →
      containsSeq (str "## Child Pages")
        (convert td opts page).markdown.data = true) ∧
    (containsSeq (str "## Child Pages") (assembledMarkdown td opts page) = false →
      containsSeq (str "## Child Pages")
        (convert td opts page).markdown.data = false) ∧
    buildChildrenSection page.children = childrenSectionSpec page.children := by
  have hdata : (convert td opts page).markdown.data =
      jsTrim (assembledMarkdown td opts page) ++ ['\n'] := rfl
  have hhead : (str "## Child Pages" : List Char) = '#' :: str "# Child Pages" := rfl
  have hlast : (str "## Child Pages" : List Char) = str "## Child Page" ++ ['s'] := by
    decide
  refine ⟨?_, ?_, buildChildrenSection_eq page.children⟩
  · intro hic hch
    have hlit : ∀ X : List Char,
        str "## Child Pages" <:+: str "\n\n---\n\n## Child Pages\n\n" ++ X := by
      intro X
      refine ⟨str "\n\n---\n\n", str "\n\n" ++ X, ?_⟩
      rw [show (str "\n\n---\n\n## Child Pages\n\n" : List Char) =
        str "\n\n---\n\n" ++ (str "## Child Pages" ++ str "\n\n") by decide]
      simp [List.append_assoc]
    have hin : str "## Child Pages" <:+: buildChildrenSection page.children := by
      rw [buildChildrenSection_eq]
      unfold childrenSectionSpec
      exact hlit _
    have hassm : assembledMarkdown td opts page =
        ((if opts.frontMatter then addFrontMatter page else []) ++
          bodyMarkdown td opts page) ++ buildChildrenSection page.children := by
      rw [assembled_decomp, if_pos (⟨hic, hch⟩ :
        opts.includeChildren = true ∧ page.children ≠ [])]
    have h2 : str "## Child Pages" <:+: assembledMarkdown td opts page := by
      rw [hassm]
      exact hin.trans (List.suffix_append _ _).isInfix
    have h3 := infix_jsTrim hhead hlast (by decide) (by decide) h2
    rw [hdata]
    exact containsSeq_iff.mpr (h3.trans (List.prefix_append _ _).isInfix)
  · intro hno
    rw [hdata]
    by_contra hc
    rw [Bool.not_eq_false] at hc
    have h1 : str "## Child Pages" <:+:
        jsTrim (assembledMarkdown td opts page) ++ ['\n'] := containsSeq_iff.mp hc
    have h2 := infix_append_singleton hlast (by decide) h1
    have h3 := h2.trans (jsTrim_isInfix _)
    rw [containsSeq_iff.mpr h3] at hno
    exact Bool.noConfusion hno

/-- Witness for C4 at a child-bearing page. -/
theorem C4_witness :
    containsSeq (str "## Child Pages")
      (convert tdEmpty ⟨true, true, true⟩ childPage).markdown.data = true :=
  (C4_children_section tdEmpty ⟨true, true, true⟩ childPage).1 rfl (by decide)

set_option maxRecDepth 100000 in
/-- C1 counterexample: nested unknown macros are not replaced one comment
and one warning per occurrence — on `bodyC1` the outer `a` macro's lazy
match stops at the first closing tag, only one warning (for `a`) is
produced, no warning names `b`, and no comment naming `b` appears in the
returned HTML. -/
theorem C1_counterexample :
    (preprocessMacros bodyC1).2 = [str "Unsupported macro removed: a"] ∧
    containsSeq (str "<ac:structured-macro ac:name=\"b\">") bodyC1 = true ∧
    str "Unsupported macro removed: b" ∉ (preprocessMacros bodyC1).2 ∧
    containsSeq (str "b -->") (preprocessMacros bodyC1).1 = false := by
  refine ⟨?_, ?_, ?_, ?_⟩ <;> decide

/-- C1 (amended): `preprocessMacros` is a total function; its
unknown-macro fallback is one left-to-right global replace pass — the
`RegexTrace` relation: leftmost non-overlapping matches, each replaced by
a comment with its warning appended in document order — over the HTML
left by the known-macro passes, and every warning the method ever
returns has the form `Unsupported macro removed: <name>`; nested unknown
macros yield one warning for the outermost occurrence only (see the
counterexample). -/
theorem C1_unknown_fallback (html : List Char) :
    RegexTrace unknownPat unknownRepl (knownPasses html)
      (replacePass unknownPat unknownRepl (knownPasses html)) ∧
    ∀ w ∈ (preprocessMacros html).2, ∃ n, w = str "Unsupported macro removed: " ++ n := by
  have hne : ∀ s rem caps, matchSeq unknownPat s = some (rem, caps) →
      rem.length < s.length := pat_consumes (by decide)
  have htr : RegexTrace unknownPat unknownRepl (knownPasses html)
      (replacePass unknownPat unknownRepl (knownPasses html)) :=
    replacePass_trace hne (knownPasses html)
  refine ⟨htr, ?_⟩
  have hsnd : (preprocessMacros html).2 =
      (replacePass unknownPat unknownRepl (knownPasses html)).2 := by
    simp only [preprocessMacros]
  rw [hsnd]
  intro w hw
  obtain ⟨m, caps, hm, hmt, hx⟩ := htr.warnings_mem w hw
  refine ⟨caps.headD [], ?_⟩
  simpa [unknownRepl] using hx

set_option maxRecDepth 100000 in
/-- Witness for C1 at a concrete unknown macro. -/
theorem C1_witness :
    ∃ n, str "Unsupported macro removed: zz" = str "Unsupported macro removed: " ++ n :=
  (C1_unknown_fallback (str "<ac:structured-macro ac:name=\"zz\">x</ac:structured-macro>")).2
    (str "Unsupported macro removed: zz") (by decide)

set_option maxRecDepth 100000 in
/-- C6 counterexample: a note panel nested inside another note panel is
not replaced as the claim describes — the outer panel's lazy match stops
at the inner panel's closing tag, the contents `B` and `C` are lost, and
a spurious `Unsupported macro removed: note` warning is produced. -/
theorem C6_counterexample :
    preprocessMacros bodyC6 =
      (str "<blockquote><p><strong>[!] NOTE:</strong></p>A<!-- Unsupported Confluence macro: note -->",
       [str "Unsupported macro removed: note"]) := by
  decide

set_option maxRecDepth 100000 in
/-- C6 (amended): each panel pass is one left-to-right global replace
(the `RegexTrace` relation); the glyph table equals the specification's
(`info="i"`, `note="!"`, `warning="!!"`, `tip="*"`); on non-nested panels
the rich-text body is extracted with fallback to the raw content — as
evaluated here for each kind, including the specification's `info`
example — but nested panels are mangled (see the counterexample). -/
theorem C6_panels :
    (∀ t ∈ panelTypes, ∀ html : List Char,
      RegexTrace (panelPat t) (panelRepl t) html
        (replacePass (panelPat t) (panelRepl t) html)) ∧
    (∀ t ∈ panelTypes, panelEmoji t = panelGlyphSpec t) ∧
    preprocessMacros (str "<ac:structured-macro ac:name=\"info\"><ac:rich-text-body><p>This is informational</p></ac:rich-text-body></ac:structured-macro>") =
      (str "<blockquote><p><strong>[i] INFO:</strong></p><p>This is informational</p></blockquote>", []) ∧
    preprocessMacros (str "<ac:structured-macro ac:name=\"note\">raw stuff</ac:structured-macro>") =
      (str "<blockquote><p><strong>[!] NOTE:</strong></p>raw stuff</blockquote>", []) ∧
    preprocessMacros (str "<ac:structured-macro ac:name=\"warning\"><ac:rich-text-body>W</ac:rich-text-body></ac:structured-macro>") =
      (str "<blockquote><p><strong>[!!] WARNING:</strong></p>W</blockquote>", []) ∧
    preprocessMacros (str "<ac:structured-macro ac:name=\"tip\"><ac:rich-text-body>T</ac:rich-text-body></ac:structured-macro>") =
      (str "<blockquote><p><strong>[*] TIP:</strong></p>T</blockquote>", []) := by
  refine ⟨?_, by decide, by decide, by decide, by decide, by decide⟩
  intro t ht html
  exact replacePass_trace (pat_consumes (by decide)) html

/-- Witness for C6: the trace relation at a concrete panel kind. -/
theorem C6_witness :
    RegexTrace (panelPat "info") (panelRepl "info") (str "<p>x</p>")
      (replacePass (panelPat "info") (panelRepl "info") (str "<p>x</p>")) :=
  C6_panels.1 "info" (by decide) (str "<p>x</p>")

end C2M
